import Mathlib

/-!
Verification of the `fuel` virtual-tree reconciler (`src/stem.ts`) against its
natural-language specification.

The embedding models the mutable object graph of the TypeScript source with
explicit heaps: virtual elements live in an `ElemHeap` (a list indexed by
`ElemId`), native DOM nodes live in a `DomHeap` (indexed by `DomId`).  Field
mutation becomes functional heap update; `null`/`undefined` become `Option`;
code paths that would raise a TypeError in JavaScript return `Except`
errors.  Collaborator modules that are not part of the source under
verification (`difference.ts`, `element.ts`, `tree.ts`, `util.ts`) are
modelled from the specification and are marked as such in their doc
comments.
-/

namespace Fuel

/-- Identifier of a virtual element in the element heap. -/
abbrev ElemId := Nat

/-- Identifier of a native DOM node in the DOM heap. -/
abbrev DomId := Nat

/-- Identifier of a `FuelStem` instance (`_stem` back references). -/
abbrev StemId := Nat

/-- Ambient context value threaded through rendering.  In the source this is
an arbitrary object; the model distinguishes the default empty object `{}`
from any other value. -/
inductive Ctx where
  | empty
  | obj (n : Nat)
deriving DecidableEq, Repr

/-- Value of a single prop: either a primitive value or a style object
(mapping of style property names to values). -/
inductive AttrVal where
  | prim (v : Nat)
  | style (entries : List (String × Nat))
deriving DecidableEq, Repr

/- Modelled from the spec (and the compiled `lib/stem.js`, which inlines the
enum values): `AttrState` of `src/difference.ts`, which is not under `src/`.
Per-attribute change kinds: NEW = 1, REMOVED = 2, REPLACED = 3,
STYLE_CHANGED = 5. -/
namespace AttrState

def NEW : Nat := 1
def REMOVED : Nat := 2
def REPLACED : Nat := 3
def STYLE_CHANGED : Nat := 5

end AttrState

/-- One per-attribute change entry of a `Difference`. -/
structure AttrChange where
  key : String
  value : AttrVal
  state : Nat
deriving DecidableEq, Repr

/-- The difference record produced by the external diff classifier: a bit set
of change kinds plus ordered attribute change entries. -/
structure Difference where
  flags : Nat
  attr : List AttrChange
deriving DecidableEq, Repr

/- Modelled from the spec: `DifferenceBits` of `src/difference.ts`, which is
not under `src/`.  The spec describes the difference as "a bit-set of change
kinds (new, removed, replaced, text-changed, style-changed, attribute
changed, children-must-be-created, no-change)"; the concrete numeric values
are internal to the missing module, so the model assigns distinct powers of
two. -/
namespace DifferenceBits

def CREATE_CHILDREN : Nat := 1
def NEW_ELEMENT : Nat := 2
def REMOVE_ELEMENT : Nat := 4
def REPLACE_ELEMENT : Nat := 8
def TEXT_CHANGED : Nat := 16
def STYLE_CHANGED : Nat := 32
def ATTR_CHANGED : Nat := 64

end DifferenceBits

/-- Modelled from the spec: `isNewElement` of `src/difference.ts` (not under
`src/`): tests the new-element bit of the difference flags. -/
def isNewElement (d : Difference) : Bool :=
  d.flags &&& DifferenceBits.NEW_ELEMENT != 0

/-- Modelled from the spec: `isRemoveElement` of `src/difference.ts` (not
under `src/`). -/
def isRemoveElement (d : Difference) : Bool :=
  d.flags &&& DifferenceBits.REMOVE_ELEMENT != 0

/-- Modelled from the spec: `isReplaceElement` of `src/difference.ts` (not
under `src/`). -/
def isReplaceElement (d : Difference) : Bool :=
  d.flags &&& DifferenceBits.REPLACE_ELEMENT != 0

/-- Modelled from the spec: `isTextChanged` of `src/difference.ts` (not under
`src/`). -/
def isTextChanged (d : Difference) : Bool :=
  d.flags &&& DifferenceBits.TEXT_CHANGED != 0

/-- Modelled from the spec: `isCreateChildren` of `src/difference.ts` (not
under `src/`): the orthogonal "children must be created" flag. -/
def isCreateChildren (d : Difference) : Bool :=
  d.flags &&& DifferenceBits.CREATE_CHILDREN != 0

/-- A virtual element (`FuelElement` of `src/type.ts`).  Semantic fields
(`type`, `key`, `props`, `children`, text payload) plus the mutable
bookkeeping fields the reconciler attaches (`dom`, `_stem`, `_unmounted`,
`_ownerElement`, `_keymap`, `_componentInstance`).  The `component` field is
the model of compositeness: `some rendered` marks a composite element
together with the element its instantiation produces (`none` inside meaning
the component renders null); `none` marks a host element. -/
structure FuelElementData where
  type : Nat
  key : Option Nat
  props : List (String × AttrVal)
  children : List ElemId
  text : Option String
  dom : Option DomId
  _stem : Option StemId
  _unmounted : Bool
  _ownerElement : Option ElemId
  _keymap : Option (List (Nat × ElemId))
  _componentInstance : Option Nat
  component : Option (Option ElemId)
deriving DecidableEq, Repr

/-- The element heap: element ids index into this list. -/
abbrev ElemHeap := List FuelElementData

/-- A native DOM node (`FuelDOMNode`): node type (1 = element container,
3 = text), ordered child list, parent back pointer and text payload. -/
structure FuelDOMNodeData where
  nodeType : Nat
  childNodes : List DomId
  parentNode : Option DomId
  textContent : String
deriving DecidableEq, Repr

/-- The DOM heap: dom ids index into this list. -/
abbrev DomHeap := List FuelDOMNodeData

/-- Is the given dom id an element-kind (container) node?  Used to model the
`children` HTMLCollection, which contains only element-kind child nodes. -/
def isElementNode (d : DomHeap) (c : DomId) : Bool :=
  match d[c]? with
  | some nd => nd.nodeType == 1
  | none => false

/-- The element-kind children of a node (the live `children` collection of
the DOM, as opposed to `childNodes`). -/
def elementChildren (d : DomHeap) (p : DomId) : List DomId :=
  match d[p]? with
  | some nd => nd.childNodes.filter (isElementNode d)
  | none => []

/-- DOM `appendChild(p, c)`: detaches `c` from its current parent (DOM append
moves nodes), then appends it at the end of the child list of `p`. -/
def DomHeap.appendChild (d : DomHeap) (p c : DomId) : DomHeap :=
  let detached :=
    match d[c]? with
    | some cd =>
      match cd.parentNode with
      | some q =>
        match d[q]? with
        | some qd => d.set q { qd with childNodes := qd.childNodes.erase c }
        | none => d
      | none => d
    | none => d
  let reparented :=
    match detached[c]? with
    | some cd => detached.set c { cd with parentNode := some p }
    | none => detached
  match reparented[p]? with
  | some pd => reparented.set p { pd with childNodes := pd.childNodes ++ [c] }
  | none => reparented

/-- Errors of the embedding.  `typeError` stands for a JavaScript TypeError
raised by dereferencing `null`/`undefined` (or by a DOM method applied to a
non-child); `invariantViolation` is the reconciler invariant assertion
firing; `fuelExhausted` marks a diverging component expansion chain (an
artifact of arbitrary heaps, unreachable on well-formed ones). -/
inductive PatchError where
  | typeError
  | invariantViolation
  | fuelExhausted
deriving DecidableEq, Repr

/-- DOM `removeChild(p, c)`: removes `c` from the child list of `p`, clearing
its parent pointer; a TypeError if `c` is not a child of `p`. -/
def DomHeap.removeChild (d : DomHeap) (p c : DomId) : Except PatchError DomHeap :=
  match d[p]? with
  | none => .error .typeError
  | some pd =>
    if c ∈ pd.childNodes then
      let d1 := d.set p { pd with childNodes := pd.childNodes.erase c }
      match d1[c]? with
      | some cd => .ok (d1.set c { cd with parentNode := none })
      | none => .ok d1
    else .error .typeError

/-- DOM `replaceChild(p, newC, oldC)`: replaces `oldC` by `newC` in place in
the child list of `p`; a TypeError if `oldC` is not a child of `p`. -/
def DomHeap.replaceChild (d : DomHeap) (p newC oldC : DomId) : Except PatchError DomHeap :=
  match d[p]? with
  | none => .error .typeError
  | some pd =>
    if oldC ∈ pd.childNodes then
      let d1 := d.set p { pd with childNodes := pd.childNodes.replace oldC newC }
      let d2 :=
        match d1[oldC]? with
        | some od => d1.set oldC { od with parentNode := none }
        | none => d1
      match d2[newC]? with
      | some nd => .ok (d2.set newC { nd with parentNode := some p })
      | none => .ok d2
    else .error .typeError

/-- Observable side effects of the Batch Applier: lifecycle hook
invocations, shared-event-handler operations, style/attribute writes and
subtree materialization calls.  Structural DOM mutations are reflected in
the `DomHeap` state instead. -/
inductive Effect where
  | didMount (e : ElemId)
  | willUnmount (e : ElemId)
  | didUpdate (e : ElemId)
  | replaceEvent (d : DomId) (name : String)
  | removeEvent (d : DomId) (name : String)
  | setStyle (d : DomId) (name : String) (v : Nat)
  | setProperty (d : DomId) (key : String)
  | removeAttribute (d : DomId) (key : String)
  | attachNode (d : DomId) (e : ElemId)
  | builtTree (e : ElemId) (d : DomId)
deriving DecidableEq, Repr

/- Modelled from the spec: the `FuelElementView` namespace of
`src/element.ts`, which is not under `src/` — component, lifecycle and
native-binding primitives consumed as black boxes. -/
namespace FuelElementView

/-- Modelled from the spec: `isComponent` — is the element composite?  In the
model compositeness is the presence of the `component` field. -/
def isComponent (d : FuelElementData) : Bool :=
  d.component.isSome

/-- Modelled from the spec: `getComponentRenderedTree` — the host tree a
composite old element previously rendered (one composite layer unwrapped). -/
def getComponentRenderedTree (d : FuelElementData) : Option ElemId :=
  d.component.getD none

/-- Modelled from the spec: `instantiateComponent` — resolves one composite
layer of the element into the element it renders, carrying the context
through the expansion.  The model stores the rendered tree on the composite
element itself and leaves the context unchanged (context production is
internal to the missing module). -/
def instantiateComponent (context : Ctx) (d : FuelElementData) : Option ElemId × Ctx :=
  (d.component.getD none, context)

/-- Modelled from the spec: `stripComponent` — unwraps composite layers until
a host element (or null) results.  Fuel-bounded against cyclic heaps. -/
def stripComponent (h : ElemHeap) : Nat → ElemId → Except PatchError (Option ElemId)
  | 0, _ => .error .fuelExhausted
  | fuel + 1, e =>
    match h[e]? with
    | none => .ok (some e)
    | some d =>
      match d.component with
      | none => .ok (some e)
      | some none => .ok none
      | some (some r) => stripComponent h fuel r

/-- Modelled from the spec: `getTextValueOf` — the text payload of a text
element. -/
def getTextValueOf (d : FuelElementData) : String :=
  d.text.getD ""

end FuelElementView

/-- State threaded through the Batch Applier: the element heap, the DOM heap
and the trace of observable effects, in order of occurrence. -/
structure UpdSt where
  eheap : ElemHeap
  dheap : DomHeap
  events : List Effect
deriving DecidableEq, Repr

/-- Modelled from the spec: `FuelElementView.createDomElement`
(`src/element.ts`, not under `src/`) — creates the single native node for
one element (node type 3 for a text element, 1 otherwise).  Returns the
fresh node id. -/
def createDomElement (s : UpdSt) (e : ElemId) : Except PatchError (UpdSt × DomId) :=
  match s.eheap[e]? with
  | none => .error .typeError
  | some d =>
    let node : FuelDOMNodeData :=
      { nodeType := if d.text.isSome then 3 else 1
        childNodes := []
        parentNode := none
        textContent := d.text.getD "" }
    .ok ({ s with dheap := s.dheap ++ [node] }, s.dheap.length)

/-- Modelled from the spec: `fastCreateDomTree` (`src/tree.ts`, not under
`src/`) — "builds and returns a fully materialized native subtree".  The
model allocates the subtree root node and records the call; descendant
materialization is opaque to the reconciler (consumed as a black box). -/
def fastCreateDomTree (s : UpdSt) (e : Option ElemId) : Except PatchError (UpdSt × DomId) :=
  match e with
  | none => .error .typeError
  | some el =>
    match createDomElement s el with
    | .error err => .error err
    | .ok (s1, d) => .ok ({ s1 with events := s1.events ++ [.builtTree el d] }, d)

/-- Modelled from the spec: `invariant` (`src/util.ts`, not under `src/`) —
"fatal — the process must abort reconciliation immediately": aborts with the
given error when its condition holds. -/
def invariant (cond : Bool) (e : PatchError) : Except PatchError Unit :=
  if cond then .error e else .ok ()

/-- Lifecycle hook invocation `FuelElementView.invokeDidMount` — modelled as
an appended trace event (hook bodies are external). -/
def invokeDidMount (s : UpdSt) (e : ElemId) : UpdSt :=
  { s with events := s.events ++ [.didMount e] }

/-- Lifecycle hook invocation `FuelElementView.invokeWillUnmount`. -/
def invokeWillUnmount (s : UpdSt) (e : ElemId) : UpdSt :=
  { s with events := s.events ++ [.willUnmount e] }

/-- Lifecycle hook invocation `FuelElementView.invokeDidUpdate`. -/
def invokeDidUpdate (s : UpdSt) (e : ElemId) : UpdSt :=
  { s with events := s.events ++ [.didUpdate e] }

/-- Modelled from the spec: `attachFuelElementToNode` (`src/element.ts`, not
under `src/`) — records the element-to-node association. -/
def attachFuelElementToNode (s : UpdSt) (d : DomId) (e : ElemId) : UpdSt :=
  { s with events := s.events ++ [.attachNode d e] }

/-- Modelled from the spec: the `DOMEvents` table of `src/type.ts` (not under
`src/`) — recognizes event-prefixed prop keys, which route through the
shared event handler. -/
def DOMEvents (key : String) : Bool :=
  key.startsWith "on"

/-- `replaceElement` (stem.ts lines 79-96): builds the native node for the
new element; if both the old and the new node are element-kind containers,
moves every element-kind child of the old node onto the new one (the
`while (children.length) newDom.appendChild(children[0])` loop moves the
first remaining element child each iteration, i.e. all of them in order);
then inserts the new node under the parent — `replaceChild` for positional
children, remove-then-append for keyed children. -/
def replaceElement (s : UpdSt) (parent : Option ElemId) (oldElement newElement : ElemId)
    (isKeyedItems : Bool) : Except PatchError UpdSt := do
  let (s1, newDom) ← createDomElement s newElement
  let oldDom ←
    match (s1.eheap[oldElement]?).bind (·.dom) with
    | none => .error PatchError.typeError
    | some od => pure od
  let oldKind := (s1.dheap[oldDom]?).map (·.nodeType)
  let newKind := (s1.dheap[newDom]?).map (·.nodeType)
  let spliced := (elementChildren s1.dheap oldDom).foldl (fun d c => d.appendChild newDom c) s1.dheap
  let s2 := if oldKind = some 1 ∧ newKind = some 1 then { s1 with dheap := spliced } else s1
  let parentDom ←
    match parent.bind (fun p => (s2.eheap[p]?).bind (·.dom)) with
    | none => .error PatchError.typeError
    | some pd => pure pd
  if !isKeyedItems then do
    let d3 ← s2.dheap.replaceChild parentDom newDom oldDom
    pure { s2 with dheap := d3 }
  else do
    let d3 ← s2.dheap.removeChild parentDom oldDom
    pure { s2 with dheap := (d3.appendChild parentDom newDom) }

/-- `copyElementRef` (stem.ts lines 99-105): the new element takes over the
old element's native node; keyed pairings re-append the node to its parent
to normalize order. -/
def copyElementRef (s : UpdSt) (oldElement newElement : ElemId) (isKeyedItem : Bool) :
    Except PatchError UpdSt := do
  let dom ←
    match (s.eheap[oldElement]?).bind (·.dom) with
    | none => .error PatchError.typeError
    | some od => pure od
  let s1 :=
    match s.eheap[newElement]? with
    | some nd => { s with eheap := s.eheap.set newElement { nd with dom := some dom } }
    | none => s
  let s2 := attachFuelElementToNode s1 dom newElement
  if isKeyedItem then
    match (s2.dheap[dom]?).bind (·.parentNode) with
    | none => .error PatchError.typeError
    | some p => pure { s2 with dheap := s2.dheap.appendChild p dom }
  else
    pure s2

/-- One attribute-change entry application of `updateElement` (stem.ts lines
111-138): NEW/REPLACED entries route event keys through the shared event
handler and set plain properties otherwise; STYLE_CHANGED applies each style
property; REMOVED removes the event or the attribute. -/
def applyAttrChange (dom : DomId) (s : UpdSt) (c : AttrChange) : UpdSt :=
  if c.state = AttrState.NEW ∨ c.state = AttrState.REPLACED then
    if DOMEvents c.key then
      { s with events := s.events ++ [.replaceEvent dom ((c.key.drop 2).toLower)] }
    else
      { s with events := s.events ++ [.setProperty dom c.key] }
  else if c.state = AttrState.STYLE_CHANGED then
    match c.value with
    | .style entries =>
      { s with events := s.events ++ entries.map (fun p => .setStyle dom p.1 p.2) }
    | .prim _ => s
  else if c.state = AttrState.REMOVED then
    if DOMEvents c.key then
      { s with events := s.events ++ [.removeEvent dom ((c.key.drop 2).toLower)] }
    else
      { s with events := s.events ++ [.removeAttribute dom c.key] }
  else s

/-- `updateElement` (stem.ts lines 108-139): applies every attribute change
entry of the difference to the new element's native node. -/
def updateElement (s : UpdSt) (d : Difference) (newElement : ElemId) :
    Except PatchError UpdSt :=
  match (s.eheap[newElement]?).bind (·.dom) with
  | none => .error .typeError
  | some dom => .ok (d.attr.foldl (applyAttrChange dom) s)

/-- One mutation instruction produced by the Patch Walker (stem.ts lines
142-150). -/
structure Batch where
  root : Option ElemId
  parent : Option ElemId
  newElement : Option ElemId
  oldElement : Option ElemId
  isKeyedItem : Bool
  difference : Difference
  context : Ctx
deriving DecidableEq, Repr

/-- One iteration of `update` (stem.ts lines 153-192): dispatch on the batch
entry's difference kind, then the orthogonal create-children flag. -/
def updateBatch (s : UpdSt) (b : Batch) : Except PatchError UpdSt := do
  let s ←
    if isNewElement b.difference then
      match b.parent with
      | some p => do
        let (s1, tree) ← fastCreateDomTree s b.newElement
        let parentDom ←
          match (s1.eheap[p]?).bind (·.dom) with
          | none => .error PatchError.typeError
          | some pd => pure pd
        let s2 := { s1 with dheap := s1.dheap.appendChild parentDom tree }
        match b.newElement with
        | some n => pure (invokeDidMount s2 n)
        | none => pure s2
      | none => do
        let (s1, _tree) ← fastCreateDomTree s b.newElement
        match b.oldElement with
        | some _ =>
          -- `parent.dom.appendChild(tree)` with `parent` null: TypeError
          .error PatchError.typeError
        | none => pure s1
    else if isRemoveElement b.difference then do
      let o ←
        match b.oldElement with
        | none => .error PatchError.typeError
        | some o => pure o
      let s1 := invokeWillUnmount s o
      let oldDom ←
        match (s1.eheap[o]?).bind (·.dom) with
        | none => .error PatchError.typeError
        | some od => pure od
      let parentDom ←
        match (s1.dheap[oldDom]?).bind (·.parentNode) with
        | none => .error PatchError.typeError
        | some pd => pure pd
      let d2 ← s1.dheap.removeChild parentDom oldDom
      let s2 := { s1 with dheap := d2 }
      match s2.eheap[o]? with
      | some od => pure { s2 with eheap := s2.eheap.set o { od with _stem := none } }
      | none => pure s2
    else if isReplaceElement b.difference then do
      let o ←
        match b.oldElement with
        | none => .error PatchError.typeError
        | some o => pure o
      let n ←
        match b.newElement with
        | none => .error PatchError.typeError
        | some n => pure n
      let s1 := invokeWillUnmount s o
      let s2 ← replaceElement s1 b.parent o n b.isKeyedItem
      pure (invokeDidMount s2 n)
    else if isTextChanged b.difference then do
      let o ←
        match b.oldElement with
        | none => .error PatchError.typeError
        | some o => pure o
      let n ←
        match b.newElement with
        | none => .error PatchError.typeError
        | some n => pure n
      let dom ←
        match (s.eheap[o]?).bind (·.dom) with
        | none => .error PatchError.typeError
        | some od => pure od
      let s1 :=
        match s.eheap[n]? with
        | some nd => { s with eheap := s.eheap.set n { nd with dom := some dom } }
        | none => s
      let s2 := attachFuelElementToNode s1 dom n
      let s3 ←
        match s2.eheap[n]?, s2.dheap[dom]? with
        | some nd, some dd =>
          let dd2 := { dd with textContent := FuelElementView.getTextValueOf nd }
          pure { s2 with dheap := s2.dheap.set dom dd2 }
        | _, _ => .error PatchError.typeError
      pure (invokeDidUpdate s3 n)
    else do
      let o ←
        match b.oldElement with
        | none => .error PatchError.typeError
        | some o => pure o
      let n ←
        match b.newElement with
        | none => .error PatchError.typeError
        | some n => pure n
      let s1 ← copyElementRef s o n b.isKeyedItem
      let s2 ← updateElement s1 b.difference n
      pure (invokeDidUpdate s2 n)
  if isCreateChildren b.difference then do
    let (s1, _tree) ← fastCreateDomTree s b.newElement
    pure s1
  else
    pure s

/-- `update` (stem.ts lines 153-192): applies the collected batch entries in
traversal order. -/
def update (s : UpdSt) (batches : List Batch) : Except PatchError UpdSt :=
  batches.foldlM updateBatch s

/-- One stack frame of the Diff/Patch Walker (`PatchStackType`, stem.ts lines
61-71).  The child queues and the difference are `null` until the frame is
parsed. -/
structure PatchFrame where
  context : Ctx
  newElement : Option ElemId
  oldElement : Option ElemId
  newChildren : Option (List ElemId)
  oldChildren : Option (List ElemId)
  parsed : Bool
  difference : Option Difference
  root : Option ElemId
  isKeyedItem : Bool
deriving DecidableEq, Repr

/-- `makeInitialStackState` (stem.ts lines 195-209): the single initial frame
pairing the new root with the previously owned tree. -/
def makeInitialStackState (context : Ctx) (newElement oldElement : Option ElemId) :
    List PatchFrame :=
  [{ context
     newElement
     oldElement
     newChildren := none
     oldChildren := none
     parsed := false
     difference := none
     root := newElement
     isKeyedItem := false }]

/-- The keyed-lookup condition of `createNextStackState` (stem.ts line 220):
`parentOldElement && parentOldElement._keymap && newChild &&
parentOldElement._keymap[newChild.key]`.  When it holds, returns the popped
new child's key, the keyed old-child match, and the popped new child
itself. -/
def keyedMatch (h : ElemHeap) (parentState : Option PatchFrame)
    (newChild : Option ElemId) : Option (Nat × ElemId × ElemId) := do
  let ps ← parentState
  let po ← ps.oldElement
  let pod ← h[po]?
  let km ← pod._keymap
  let nc ← newChild
  let ncd ← h[nc]?
  let k ← ncd.key
  let oc ← km.lookup k
  pure (k, oc, nc)

/-- The keymap-building side effect of a keyed hit (stem.ts lines 222-225):
`if (parentNewElement && !parentNewElement._keymap)` the new parent's
`_keymap` is created holding the single entry for the popped child. -/
def pairHeap (h : ElemHeap) (parentState : Option PatchFrame) (k : Nat) (nc : ElemId) :
    ElemHeap :=
  match parentState.bind (·.newElement) with
  | some pn =>
    match h[pn]? with
    | some pnd =>
      if pnd._keymap = none then h.set pn { pnd with _keymap := some [(k, nc)] } else h
    | none => h
  | none => h

/-- The pairing step of `createNextStackState` (stem.ts lines 217-241): on a
keyed hit the keyed match is the paired old child and is spliced out of the
queue (flagged keyed); if it was already consumed from the queue, degrade to
positional dequeue; without a keyed hit, positional dequeue.  Returns the
paired old child, the advanced old-children queue, the keyed flag and the
updated heap. -/
def pairOldChild (h : ElemHeap) (parentState : Option PatchFrame) (newChild0 : Option ElemId)
    (prevOld : List ElemId) : Option ElemId × List ElemId × Bool × ElemHeap :=
  match keyedMatch h parentState newChild0 with
  | some (k, oc, nc) =>
    let h1 := pairHeap h parentState k nc
    match prevOld.findIdx? (· == oc) with
    | some idx => (some oc, prevOld.eraseIdx idx, true, h1)
    | none => (prevOld.head?, prevOld.tail, false, h1)
  | none => (prevOld.head?, prevOld.tail, false, h)

/-- The unmounted/subtree-root step of `createNextStackState` (stem.ts lines
243-250): an `_unmounted` new child becomes null; a new child carrying its
own `_stem` becomes the root propagated to descendants. -/
def adjustNewChild (h1 : ElemHeap) (newChild0 : Option ElemId) (root : Option ElemId) :
    Option ElemId × Option ElemId :=
  match newChild0 with
  | some nc =>
    match h1[nc]? with
    | some ncd =>
      if ncd._unmounted then (none, root)
      else if ncd._stem.isSome then (some nc, some nc)
      else (some nc, root)
    | none => (some nc, root)
  | none => (none, root)

/-- The ownership-propagation step of `createNextStackState` (stem.ts lines
252-254): a surviving new child without an owner inherits
`prev.newElement._ownerElement` — a dereference of null when `prev` has no
new element. -/
def propagateOwner (h1 : ElemHeap) (newChild1 : Option ElemId)
    (prevNewElement : Option ElemId) : Except PatchError ElemHeap :=
  match newChild1 with
  | some nc =>
    match h1[nc]? with
    | some ncd =>
      if ncd._ownerElement = none then
        match prevNewElement with
        | none => .error .typeError
        | some pe =>
          match h1[pe]? with
          | some ped => .ok (h1.set nc { ncd with _ownerElement := ped._ownerElement })
          | none => .ok h1
      else .ok h1
    | none => .ok h1
  | none => .ok h1

/-- `createNextStackState` (stem.ts lines 212-267): pops the next new child
of `prev`, pairs it with an old child (`pairOldChild`), nulls out
`_unmounted` new children and promotes subtree roots (`adjustNewChild`), and
propagates ownership (`propagateOwner`).  Returns the new unparsed child
frame, `prev` with its queues advanced, and the updated heap. -/
def createNextStackState (h : ElemHeap) (context : Ctx) (parentState : Option PatchFrame)
    (prev : PatchFrame) (_oldElementArg : Option ElemId) :
    Except PatchError (PatchFrame × PatchFrame × ElemHeap) := do
  let prevNew ←
    match prev.newChildren with
    | none => .error PatchError.typeError
    | some l => pure l
  let prevOld ←
    match prev.oldChildren with
    | none => .error PatchError.typeError
    | some l => pure l
  let newChild0 : Option ElemId := prevNew.head?
  let newChildren1 := prevNew.tail
  match pairOldChild h parentState newChild0 prevOld with
  | (oldChild0, oldChildren1, isKeyedItem0, h1) =>
    match adjustNewChild h1 newChild0 prev.root with
    | (newChild1, root1) => do
      let h2 ← propagateOwner h1 newChild1 prev.newElement
      let child : PatchFrame :=
        { context
          newElement := newChild1
          oldElement := oldChild0
          newChildren := none
          oldChildren := none
          parsed := false
          difference := none
          root := root1
          isKeyedItem := isKeyedItem0 }
      pure (child,
        { prev with newChildren := some newChildren1, oldChildren := some oldChildren1 }, h2)

/-- The type-mismatch expansion loop of `patchComponent` (stem.ts lines
273-275): re-instantiate the new composite chain with no previous-instance
reuse until a host element results.  Fuel-bounded against cyclic heaps. -/
def expandRemount (h : ElemHeap) : Nat → Ctx → Option ElemId → Except PatchError (Option ElemId × Ctx)
  | 0, _, _ => .error .fuelExhausted
  | fuel + 1, context, newElement =>
    match newElement with
    | none => .ok (none, context)
    | some n =>
      match h[n]? with
      | none => .ok (some n, context)
      | some nd =>
        if FuelElementView.isComponent nd then
          let (n1, c1) := FuelElementView.instantiateComponent context nd
          expandRemount h fuel c1 n1
        else .ok (some n, context)

/-- The lock-step expansion loop of `patchComponent` (stem.ts lines 277-289):
while the new element is composite, reuse the old composite's retained
instance when types match, reveal the old side's previously rendered tree,
and instantiate the new side one layer.  Mutates the heap (the
`_componentInstance` copy) and is fuel-bounded against cyclic heaps. -/
def expandLockstep (h : ElemHeap) : Nat → Ctx → Option ElemId → Option ElemId →
    Except PatchError (Ctx × Option ElemId × Option ElemId × ElemHeap)
  | 0, _, _, _ => .error .fuelExhausted
  | fuel + 1, context, newElement, oldElement =>
    match newElement with
    | none => .ok (context, none, oldElement, h)
    | some n =>
      match h[n]? with
      | none => .ok (context, some n, oldElement, h)
      | some nd =>
        if FuelElementView.isComponent nd then
          let h1 :=
            match oldElement with
            | some o =>
              match h[o]? with
              | some od =>
                if nd.type = od.type then
                  h.set n { nd with _componentInstance := od._componentInstance }
                else h
              | none => h
            | none => h
          let revealedOldElement :=
            match oldElement with
            | some o =>
              match h1[o]? with
              | some od =>
                if FuelElementView.isComponent od then
                  FuelElementView.getComponentRenderedTree od
                else some o
              | none => some o
            | none => none
          let nd1 := (h1[n]?).getD nd
          let (stripedNewTree, newContext) := FuelElementView.instantiateComponent context nd1
          expandLockstep h1 fuel newContext stripedNewTree revealedOldElement
        else .ok (context, some n, oldElement, h)

/-- `patchComponent` (stem.ts lines 270-298): the Component Expander —
resolves both sides of a pairing to host elements, instantiating the new
composite chain (with instance reuse when types match) and unwrapping the
old side; finally strips a still-composite old element.  Fuel-bounded
against cyclic heaps (any fuel at least the composite nesting depth gives
the same result; host inputs never consume fuel). -/
def patchComponent (h : ElemHeap) (fuel : Nat) (context : Ctx)
    (newElement oldElement : Option ElemId) :
    Except PatchError (Ctx × Option ElemId × Option ElemId × ElemHeap) := do
  let (context1, newElement1, oldElement1, h1) ←
    match newElement with
    | some n =>
      match h[n]? with
      | some nd =>
        if FuelElementView.isComponent nd then
          match oldElement with
          | some o =>
            match h[o]? with
            | some od =>
              if od.type ≠ nd.type then do
                let (n1, c1) ← expandRemount h fuel context newElement
                pure (c1, n1, oldElement, h)
              else
                expandLockstep h fuel context newElement oldElement
            | none => expandLockstep h fuel context newElement oldElement
          | none => expandLockstep h fuel context newElement oldElement
        else pure (context, newElement, oldElement, h)
      | none => pure (context, newElement, oldElement, h)
    | none => pure (context, newElement, oldElement, h)
  match oldElement1 with
  | some o =>
    match h1[o]? with
    | some od =>
      if FuelElementView.isComponent od then do
        let o1 ← FuelElementView.stripComponent h1 fuel o
        pure (context1, newElement1, o1, h1)
      else pure (context1, newElement1, oldElement1, h1)
    | none => pure (context1, newElement1, oldElement1, h1)
  | none => pure (context1, newElement1, oldElement1, h1)

/-- Modelled from the spec: `diff` (`src/difference.ts`, not under `src/`) —
the per-node difference classifier, "consumed as a black box producing a
`Difference` record".  Classification per the spec: an absent old side is a
new element, an absent new side is a removal, incompatible types are a full
replace, differing text payloads a text change; otherwise attribute-level
changes and the children-must-be-created flag (childless old side, new side
with children). -/
def diff (h : ElemHeap) (oldElement newElement : Option ElemId) : Difference :=
  match (oldElement.bind (h[·]?)), (newElement.bind (h[·]?)) with
  | none, none => { flags := 0, attr := [] }
  | none, some _ => { flags := DifferenceBits.NEW_ELEMENT, attr := [] }
  | some _, none => { flags := DifferenceBits.REMOVE_ELEMENT, attr := [] }
  | some od, some nd =>
    if od.type ≠ nd.type then
      { flags := DifferenceBits.REPLACE_ELEMENT, attr := [] }
    else if od.text ≠ nd.text then
      { flags := DifferenceBits.TEXT_CHANGED, attr := [] }
    else
      let newOnly := nd.props.filter (fun p => (od.props.lookup p.1).isNone)
      let removed := od.props.filter (fun p => (nd.props.lookup p.1).isNone)
      let changed := nd.props.filter
        (fun p => match od.props.lookup p.1 with
                  | some v => v ≠ p.2
                  | none => false)
      let attr :=
        newOnly.map (fun p => { key := p.1, value := p.2, state := AttrState.NEW }) ++
        changed.map (fun p => { key := p.1, value := p.2, state := AttrState.REPLACED }) ++
        removed.map (fun p => { key := p.1, value := p.2, state := AttrState.REMOVED })
      let attrFlag := if attr.isEmpty then 0 else DifferenceBits.ATTR_CHANGED
      let childFlag :=
        if od.children.isEmpty ∧ ¬ nd.children.isEmpty then DifferenceBits.CREATE_CHILDREN else 0
      { flags := attrFlag ||| childFlag, attr := attr }

/-- The state of one `FuelStem.patch` run (stem.ts lines 409-475): the
element heap, the explicit work stack, the current parent reference and the
accumulated batch list. -/
structure PatchLoopState where
  heap : ElemHeap
  stack : List PatchFrame
  parent : Option PatchFrame
  batchs : List Batch
deriving DecidableEq, Repr

/-- One iteration of the `while (stack.length)` loop of `FuelStem.patch`
(stem.ts lines 418-474): pop the top frame; if unparsed, expand components,
discard a null/null pairing, copy `_stem` across a retained pairing, compute
and record the difference, assert the old element still owns its native node
(`invariant(!oldElement.dom, ...)`), push one batch entry and snapshot the
child queues; then, parsed, re-push the frame followed by one child frame
when children remain and the difference is structural-no-change or full
replace.  Returns `none` when the stack is empty (loop exit). -/
def patchStep (s : PatchLoopState) : Except PatchError (Option PatchLoopState) := do
  match s.stack with
  | [] => pure none
  | next :: rest => do
    let expansionFuel := s.heap.length + 1
    -- parse phase (lines 424-464)
    let (next1, h1, parsedBatch, skip) ←
      if !next.parsed then do
        let (context, newElement, oldElement, h1) ←
          patchComponent s.heap expansionFuel next.context next.newElement next.oldElement
        if newElement = none ∧ oldElement = none then
          pure (next, s.heap, none, true)
        else do
          let h2 :=
            match newElement, oldElement with
            | some n, some o =>
              match h1[n]?, h1[o]? with
              | some nd, some od => h1.set n { nd with _stem := od._stem }
              | _, _ => h1
            | _, _ => h1
          let currentRoot :=
            match newElement with
            | some n =>
              match h2[n]? with
              | some nd => if nd._stem.isSome then some n else next.root
              | none => next.root
            | none => next.root
          let difference := diff h2 oldElement newElement
          match oldElement with
          | some o =>
            invariant ((h2[o]?).bind (·.dom) = none) PatchError.invariantViolation
          | none => pure ()
          let batch : Batch :=
            { root := currentRoot
              parent := s.parent.bind (·.newElement)
              newElement
              oldElement
              isKeyedItem := next.isKeyedItem
              difference
              context }
          let newChildren :=
            match newElement.bind (h2[·]?) with
            | some nd => nd.children
            | none => []
          let oldChildren :=
            match oldElement.bind (h2[·]?) with
            | some od => od.children
            | none => []
          let next1 : PatchFrame :=
            { next with
              context
              newElement
              oldElement
              difference := some difference
              newChildren := some newChildren
              oldChildren := some oldChildren
              parsed := true }
          pure (next1, h2, some batch, false)
      else
        pure (next, s.heap, none, false)
    if skip then
      -- null/null pairing: `continue` (lines 428-430)
      pure (some { s with stack := rest })
    else do
      let batchs1 :=
        match parsedBatch with
        | some b => s.batchs ++ [b]
        | none => s.batchs
      -- children expansion (lines 466-473)
      let expand :=
        ((next1.newChildren.getD []).length ≠ 0 ∨ (next1.oldChildren.getD []).length ≠ 0) ∧
        (next1.difference = none ∨
         (next1.difference.map (·.flags) = some 0) ∨
         (next1.difference.map (·.flags) = some DifferenceBits.REPLACE_ELEMENT))
      if expand then do
        let (child, next2, h2) ←
          createNextStackState h1 next1.context s.parent next1 next1.oldElement
        pure (some { heap := h2, stack := child :: next2 :: rest, parent := some next2, batchs := batchs1 })
      else
        pure (some { heap := h1, stack := rest, parent := s.parent, batchs := batchs1 })

/-- The full `FuelStem.patch` walk (stem.ts lines 409-475), as iteration of
`patchStep` bounded by an explicit step budget. -/
def patchRun (gas : Nat) (s : PatchLoopState) : Except PatchError PatchLoopState :=
  match gas with
  | 0 => .error .fuelExhausted
  | g + 1 =>
    match patchStep s with
    | .error e => .error e
    | .ok none => .ok s
    | .ok (some s1) => patchRun g s1

/-- One entry of the render queue (stem.ts line 314): a render call received
while locked stores only the element and the callback. -/
structure QueuedRender where
  element : ElemId
  cb : Nat
deriving DecidableEq, Repr

/-- The scheduling-relevant state of a `FuelStem` (stem.ts lines 304-316):
the enabled flag (`enterUnsafeUpdateZone` clears it), the reentrancy lock,
the pending render queue and the owned tree. -/
structure StemSt where
  _enabled : Bool
  lock : Bool
  renderQueue : List QueuedRender
  tree : Option ElemId
deriving DecidableEq, Repr

/-- What one `render` call does at its entry dispatch: bypass reconciliation
(unsafe update zone), enqueue (locked), start a patch cycle with the given
arguments (attached), or perform a first-time attach. -/
inductive RenderAction where
  | bypass (cb : Nat)
  | queued
  | patchCycle (el : ElemId) (cb : Nat) (context : Ctx) (updateOwner : Bool)
  | attach (el : ElemId) (cb : Nat) (updateOwner : Bool)
deriving DecidableEq, Repr

/-- The entry dispatch of `FuelStem.render` (stem.ts lines 368-397).  In the
unsafe update zone the callback fires with the current native root and
nothing else happens.  While locked, the request is pushed onto the render
queue, storing only the element and the callback.  Otherwise an owned tree
starts a patch cycle — the lock is taken, the walker runs against `el` with
the given context, and the owned tree advances when `updateOwnwer` is set
(the cycle itself is modelled by `patch`/`update`/`renderCycles`); with no
owned tree the element is attached directly.  The misspelled parameter name
`updateOwnwer` is the source's. -/
def FuelStem.render (s : StemSt) (el : ElemId) (callback : Nat) (context : Ctx)
    (updateOwnwer : Bool) : StemSt × RenderAction :=
  if !s._enabled then
    (s, .bypass callback)
  else if s.lock then
    ({ s with renderQueue := s.renderQueue ++ [{ element := el, cb := callback }] }, .queued)
  else
    match s.tree with
    | some _ =>
      ({ s with lock := true, tree := if updateOwnwer then some el else s.tree },
       .patchCycle el callback context updateOwnwer)
    | none =>
      ({ s with tree := if updateOwnwer then some el else s.tree },
       .attach el callback updateOwnwer)

/-- `FuelStem.drainRenderQueue` (stem.ts lines 356-362): shift one queued
request and replay it through `render`.  The source call
`this.render(element, cb)` passes only two arguments, so `context` and
`updateOwnwer` take the defaults declared on `render`: a fresh empty object
and `true`. -/
def FuelStem.drainRenderQueue (s : StemSt) : StemSt × Option RenderAction :=
  match s.renderQueue with
  | [] => (s, none)
  | next :: restQueue =>
    let (s1, a) := FuelStem.render { s with renderQueue := restQueue }
      next.element next.cb Ctx.empty true
    (s1, some a)

/-- A render request for the scheduling trace model: its id and the render
requests issued re-entrantly (by lifecycle hooks or callbacks) while this
request's cycle holds the lock. -/
inductive RenderReq where
  | mk (id : Nat) (during : List RenderReq)

/-- The id of a render request. -/
def RenderReq.id : RenderReq → Nat
  | .mk i _ => i

/-- The requests issued while this request's cycle holds the lock. -/
def RenderReq.during : RenderReq → List RenderReq
  | .mk _ d => d

/-- Observable scheduling events of a sequence of render cycles. -/
inductive REvent where
  | enqueued (id : Nat)
  | cycleStart (id : Nat)
  | cycleEnd (id : Nat)
deriving DecidableEq, Repr

mutual

/-- Size measure of a render request (for termination of the drain loop). -/
def RenderReq.size : RenderReq → Nat
  | .mk _ d => 1 + RenderReq.sizeList d

/-- Total size of a list of render requests. -/
def RenderReq.sizeList : List RenderReq → Nat
  | [] => 0
  | r :: rest => RenderReq.size r + RenderReq.sizeList rest

end

theorem RenderReq.sizeList_append (a b : List RenderReq) :
    RenderReq.sizeList (a ++ b) = RenderReq.sizeList a + RenderReq.sizeList b := by
  induction a with
  | nil => simp [RenderReq.sizeList]
  | cons r rest ih => simp [RenderReq.sizeList, ih]; omega

/-- The scheduling trace of the composition `render` → patch/update →
`batchCallback` → `drainRenderQueue` on an attached, enabled stem (stem.ts
lines 345-362 and 368-397), starting from a pending queue of requests.  The
head request is replayed through `render` with the lock free, so its cycle
starts (lines 380-393: the lock is taken and the walker runs).  Render
calls arriving during the cycle hit the locked branch (lines 374-377) and
are pushed onto the queue in submission order.  The deferred batch
application and cleanup complete and the batch callback resets the lock
(lines 387-392, `renderAtAnimationFrame` at lines 345-354), ending the
cycle; `drainRenderQueue` (lines 356-362) then shifts the next queued
request and replays it, recursively. -/
def renderCycles : List RenderReq → List REvent
  | [] => []
  | .mk i during :: queue =>
    REvent.cycleStart i ::
      ((during.map fun r => REvent.enqueued r.id) ++
        (REvent.cycleEnd i :: renderCycles (queue ++ during)))
termination_by q => RenderReq.sizeList q
decreasing_by
  simp only [RenderReq.sizeList_append, RenderReq.sizeList, RenderReq.size]
  omega

/-- The number of render cycles in flight never exceeds one and cycles never
overlap: scanning the trace, a cycle may start only at depth zero and end
only at depth one. -/
def inflightOk : Nat → List REvent → Bool
  | _, [] => true
  | d, REvent.cycleStart _ :: rest => d == 0 && inflightOk 1 rest
  | d, REvent.cycleEnd _ :: rest => d == 1 && inflightOk 0 rest
  | d, REvent.enqueued _ :: rest => inflightOk d rest

/-- The ids of the started cycles of a trace, in order. -/
def startIds : List REvent → List Nat
  | [] => []
  | REvent.cycleStart i :: rest => i :: startIds rest
  | _ :: rest => startIds rest

/-- The ids of the enqueued requests of a trace, in order of queue entry. -/
def enqueuedIds : List REvent → List Nat
  | [] => []
  | REvent.enqueued i :: rest => i :: enqueuedIds rest
  | _ :: rest => enqueuedIds rest

/-- A host element with every bookkeeping field clear, for concrete
witnesses. -/
def hostElem : FuelElementData :=
  { type := 0
    key := none
    props := []
    children := []
    text := none
    dom := none
    _stem := none
    _unmounted := false
    _ownerElement := none
    _keymap := none
    _componentInstance := none
    component := none }

/-- An unparsed patch frame pairing the given elements, for concrete
witnesses. -/
def initialFrame (newElement oldElement : Option ElemId) : PatchFrame :=
  { context := .empty
    newElement
    oldElement
    newChildren := none
    oldChildren := none
    parsed := false
    difference := none
    root := newElement
    isKeyedItem := false }

/-- A concrete heap for keyed-matcher witnesses: element 0 is the old parent
carrying a key index mapping key 5 to old child 2; element 1 is the popped
new child with key 5; element 2 is the old keyed child; element 3 is the new
parent. -/
def keyHeap : ElemHeap :=
  [{ hostElem with _keymap := some [(5, 2)] },
   { hostElem with key := some 5 },
   hostElem,
   hostElem]

/-- The parent stack state for keyed-matcher witnesses: new element 3, old
element 0. -/
def keyParentFrame : PatchFrame := initialFrame (some 3) (some 0)

/-- The parsed previous frame for keyed-matcher witnesses: one remaining new
child (1) and one remaining old child (2). -/
def keyPrevFrame : PatchFrame :=
  { context := .empty
    newElement := some 3
    oldElement := some 0
    newChildren := some [1]
    oldChildren := some [2]
    parsed := true
    difference := none
    root := none
    isKeyedItem := false }

/-- A parsed frame whose difference is a pure removal and which still has a
remaining old child, for concrete witnesses. -/
def removalFrame : PatchFrame :=
  { context := .empty
    newElement := none
    oldElement := none
    newChildren := some []
    oldChildren := some [5]
    parsed := true
    difference := some { flags := DifferenceBits.REMOVE_ELEMENT, attr := [] }
    root := none
    isKeyedItem := false }

/-- Concrete Batch Applier state for the C5 witness: old element 0 owns
native node 0 (a container with one element-kind child, node 2), new element
1 is a container element with no text payload, and parent element 2 owns
native node 1 whose child list is `[0]`. -/
def c5State : UpdSt :=
  { eheap := [{ hostElem with dom := some 0 },
              hostElem,
              { hostElem with dom := some 1 }]
    dheap := [{ nodeType := 1, childNodes := [2], parentNode := some 1, textContent := "" },
              { nodeType := 1, childNodes := [0], parentNode := none, textContent := "" },
              { nodeType := 1, childNodes := [], parentNode := some 0, textContent := "" }]
    events := [] }

/-- Concrete replace-classified batch entry for the C5 witness. -/
def c5Batch : Batch :=
  { root := none
    parent := some 2
    newElement := some 1
    oldElement := some 0
    isKeyedItem := false
    difference := { flags := DifferenceBits.REPLACE_ELEMENT, attr := [] }
    context := .empty }

/- ------------------------------------------------------------------ -/
/- Supporting lemmas                                                   -/
/- ------------------------------------------------------------------ -/

theorem exists_of_map_keymap (l : ElemHeap) (j : ElemId) (km : Option (List (Nat × ElemId)))
    (hm : (l[j]?).map (·._keymap) = some km) : ∃ d, l[j]? = some d ∧ d._keymap = km := by
  cases hj : l[j]? with
  | none => rw [hj] at hm; simp at hm
  | some d =>
    rw [hj] at hm
    exact ⟨d, rfl, Option.some_injective _ hm⟩

theorem proj_preserved_of_set {β : Type} (f : FuelElementData → β) (h : ElemHeap)
    (i : ElemId) (dOld dNew : FuelElementData) (j : ElemId) (hd : h[i]? = some dOld)
    (hk : f dNew = f dOld) :
    ((h.set i dNew)[j]?).map f = (h[j]?).map f := by
  rcases List.getElem?_eq_some.mp hd with ⟨hi, _⟩
  by_cases hij : i = j
  · subst hij
    rw [List.getElem?_set_eq_of_lt _ hi, hd]
    simp [hk]
  · rw [List.getElem?_set_ne hij]

theorem keyedMatch_newChild (h : ElemHeap) (p : Option PatchFrame) (w : Option ElemId)
    (k : Nat) (oc nc : ElemId) (hkm : keyedMatch h p w = some (k, oc, nc)) :
    w = some nc := by
  unfold keyedMatch at hkm
  try simp only [Option.bind_eq_bind] at hkm
  rcases Option.bind_eq_some.mp hkm with ⟨ps, hps, h1⟩
  rcases Option.bind_eq_some.mp h1 with ⟨po, hpo, h2⟩
  rcases Option.bind_eq_some.mp h2 with ⟨pod, hpod, h3⟩
  rcases Option.bind_eq_some.mp h3 with ⟨km, hkm2, h4⟩
  rcases Option.bind_eq_some.mp h4 with ⟨nc2, hnc2, h5⟩
  rcases Option.bind_eq_some.mp h5 with ⟨ncd, hncd, h6⟩
  rcases Option.bind_eq_some.mp h6 with ⟨kk, hkk, h7⟩
  rcases Option.bind_eq_some.mp h7 with ⟨oc2, hoc2, h8⟩
  simp only [pure, Option.some_inj, Prod.mk.injEq] at h8
  obtain ⟨-, -, hnceq⟩ := h8
  subst hnceq
  exact hnc2

theorem pairHeap_some (h : ElemHeap) (ps : PatchFrame) (k : Nat) (nc : ElemId)
    (pn : ElemId) (pnd : FuelElementData)
    (hpn : ps.newElement = some pn) (hpnd : h[pn]? = some pnd) :
    pairHeap h (some ps) k nc =
      if pnd._keymap = none then h.set pn { pnd with _keymap := some [(k, nc)] } else h := by
  simp [pairHeap, hpn, hpnd]

theorem pairOldChild_keyed_found (h : ElemHeap) (ps : Option PatchFrame) (w : Option ElemId)
    (prevOld : List ElemId) (k : Nat) (oc nc : ElemId) (idx : Nat)
    (hkm : keyedMatch h ps w = some (k, oc, nc))
    (hfi : prevOld.findIdx? (· == oc) = some idx) :
    pairOldChild h ps w prevOld = (some oc, prevOld.eraseIdx idx, true, pairHeap h ps k nc) := by
  simp [pairOldChild, hkm, hfi]

theorem pairOldChild_keyed_consumed (h : ElemHeap) (ps : Option PatchFrame) (w : Option ElemId)
    (prevOld : List ElemId) (k : Nat) (oc nc : ElemId)
    (hkm : keyedMatch h ps w = some (k, oc, nc))
    (hfi : prevOld.findIdx? (· == oc) = none) :
    pairOldChild h ps w prevOld = (prevOld.head?, prevOld.tail, false, pairHeap h ps k nc) := by
  simp [pairOldChild, hkm, hfi]

theorem pairOldChild_positional (h : ElemHeap) (ps : Option PatchFrame) (w : Option ElemId)
    (prevOld : List ElemId) (hkm : keyedMatch h ps w = none) :
    pairOldChild h ps w prevOld = (prevOld.head?, prevOld.tail, false, h) := by
  simp [pairOldChild, hkm]

theorem pairOldChild_proj {β : Type} (f : FuelElementData → β)
    (hf : ∀ d km, f { d with _keymap := km } = f d)
    (h : ElemHeap) (ps : Option PatchFrame) (w : Option ElemId) (prevOld : List ElemId)
    (j : ElemId) :
    (((pairOldChild h ps w prevOld).2.2.2)[j]?).map f = (h[j]?).map f := by
  unfold pairOldChild pairHeap
  repeat' split
  all_goals first
    | rfl
    | (exact proj_preserved_of_set f _ _ _ _ j (by assumption) (hf _ _))

theorem propagateOwner_some_prev (h1 : ElemHeap) (w : Option ElemId) (pe : ElemId) :
    ∃ h2, propagateOwner h1 w (some pe) = .ok h2 ∧
      ∀ {β : Type} (f : FuelElementData → β),
        (∀ d own, f { d with _ownerElement := own } = f d) →
        ∀ (j : ElemId), (h2[j]?).map f = (h1[j]?).map f := by
  unfold propagateOwner
  repeat' split
  all_goals try (exfalso; simp_all; done)
  all_goals refine ⟨_, rfl, ?_⟩
  all_goals intro β f hf j
  all_goals first
    | rfl
    | (exact proj_preserved_of_set f _ _ _ _ j (by assumption) (hf _ _))

theorem propagateOwner_none_child (h1 : ElemHeap) (pne : Option ElemId) :
    propagateOwner h1 none pne = .ok h1 := rfl

theorem createNextStackState_ok (h : ElemHeap) (context : Ctx) (ps : Option PatchFrame)
    (prev : PatchFrame) (oldArg : Option ElemId) (ncs ocs : List ElemId)
    (hnc : prev.newChildren = some ncs) (hoc : prev.oldChildren = some ocs)
    (hne : prev.newElement.isSome ∨ ncs = []) :
    ∃ child prev2 h2,
      createNextStackState h context ps prev oldArg = .ok (child, prev2, h2) ∧
      child.parsed = false ∧
      ∀ {β : Type} (f : FuelElementData → β),
        (∀ d own, f { d with _ownerElement := own } = f d) →
        (∀ d km, f { d with _keymap := km } = f d) →
        ∀ (j : ElemId), (h2[j]?).map f = (h[j]?).map f := by
  rcases hpair : pairOldChild h ps ncs.head? ocs with ⟨oldChild0, oldChildren1, isKeyed0, h1⟩
  have hpairproj : ∀ {β : Type} (f : FuelElementData → β),
      (∀ d km, f { d with _keymap := km } = f d) →
      ∀ (j : ElemId), (h1[j]?).map f = (h[j]?).map f := by
    intro β f hf j
    have := pairOldChild_proj f hf h ps ncs.head? ocs j
    rw [hpair] at this
    exact this
  rcases hadj : adjustNewChild h1 ncs.head? prev.root with ⟨newChild1, root1⟩
  have howner : ∃ h2, propagateOwner h1 newChild1 prev.newElement = .ok h2 ∧
      ∀ {β : Type} (f : FuelElementData → β),
        (∀ d own, f { d with _ownerElement := own } = f d) →
        ∀ (j : ElemId), (h2[j]?).map f = (h1[j]?).map f := by
    rcases hne with hne | hne
    · rcases Option.isSome_iff_exists.mp hne with ⟨pe, hpe⟩
      rw [hpe]
      exact propagateOwner_some_prev h1 newChild1 pe
    · subst hne
      have hnone : newChild1 = none := by
        have h0 : adjustNewChild h1 (List.head? []) prev.root = (none, prev.root) := rfl
        rw [h0] at hadj
        injection hadj with hx hy
        exact hx.symm
      subst hnone
      refine ⟨h1, propagateOwner_none_child h1 prev.newElement, ?_⟩
      intro β f hf j
      rfl
  rcases howner with ⟨h2, hh2, hh2proj⟩
  have hok : createNextStackState h context ps prev oldArg =
      .ok (⟨context, newChild1, oldChild0, none, none, false, none, root1, isKeyed0⟩,
        { prev with newChildren := some ncs.tail, oldChildren := some oldChildren1 }, h2) := by
    simp only [createNextStackState, hnc, hoc, bind, Except.bind, pure, Except.pure, hpair,
      hadj, hh2]
  refine ⟨_, _, h2, hok, rfl, ?_⟩
  intro β f hfown hfkm j
  rw [hh2proj f hfown j, hpairproj f hfkm j]

theorem createNextStackState_keymap_effect (h : ElemHeap) (context : Ctx) (ps : PatchFrame)
    (prev : PatchFrame) (oldArg : Option ElemId) (ncs ocs : List ElemId) (pe : ElemId)
    (k : Nat) (oc nc : ElemId)
    (hnc : prev.newChildren = some ncs) (hoc : prev.oldChildren = some ocs)
    (hpe : prev.newElement = some pe)
    (hkm : keyedMatch h (some ps) ncs.head? = some (k, oc, nc)) :
    ∃ child prev2 h2,
      createNextStackState h context (some ps) prev oldArg = .ok (child, prev2, h2) ∧
      ∀ (j : ElemId), (h2[j]?).map (·._keymap) =
        ((pairHeap h (some ps) k nc)[j]?).map (·._keymap) := by
  have hpair : (pairOldChild h (some ps) ncs.head? ocs).2.2.2 = pairHeap h (some ps) k nc := by
    cases hfi : ocs.findIdx? (· == oc) with
    | some idx => rw [pairOldChild_keyed_found h (some ps) ncs.head? ocs k oc nc idx hkm hfi]
    | none => rw [pairOldChild_keyed_consumed h (some ps) ncs.head? ocs k oc nc hkm hfi]
  rcases hpair2 : pairOldChild h (some ps) ncs.head? ocs with ⟨oldChild0, oldChildren1, isKeyed0, h1⟩
  have hh1 : h1 = pairHeap h (some ps) k nc := by rw [hpair2] at hpair; exact hpair
  rcases hadj : adjustNewChild h1 ncs.head? prev.root with ⟨newChild1, root1⟩
  rcases propagateOwner_some_prev h1 newChild1 pe with ⟨h2, hh2, hh2proj⟩
  have hok : createNextStackState h context (some ps) prev oldArg =
      .ok (⟨context, newChild1, oldChild0, none, none, false, none, root1, isKeyed0⟩,
        { prev with newChildren := some ncs.tail, oldChildren := some oldChildren1 }, h2) := by
    simp only [createNextStackState, hnc, hoc, bind, Except.bind, pure, Except.pure, hpair2,
      hadj, hpe, hh2]
  refine ⟨_, _, h2, hok, ?_⟩
  intro j
  have hstep := hh2proj (fun d => d._keymap) (fun d own => rfl) j
  rw [hstep, hh1]

theorem appendChild_move (d : DomHeap) (src dst c : DomId) (cd srcN dstN : FuelDOMNodeData)
    (hc : d[c]? = some cd) (hcp : cd.parentNode = some src)
    (hsrcN : d[src]? = some srcN) (hdstN : d[dst]? = some dstN)
    (hcs : c ≠ src) (hcd : c ≠ dst) (hds : dst ≠ src) :
    (d.appendChild dst c)[dst]? = some { dstN with childNodes := dstN.childNodes ++ [c] } ∧
    (d.appendChild dst c)[c]? = some { cd with parentNode := some dst } ∧
    (∀ q, q ≠ src → q ≠ dst → q ≠ c → (d.appendChild dst c)[q]? = d[q]?) ∧
    (d.appendChild dst c).length = d.length := by
  rcases List.getElem?_eq_some.mp hc with ⟨hclt, -⟩
  rcases List.getElem?_eq_some.mp hdstN with ⟨hdstlt, -⟩
  have h1 : (d.set src { srcN with childNodes := srcN.childNodes.erase c })[c]? = some cd := by
    rw [List.getElem?_set_ne (Ne.symm hcs)]
    exact hc
  have h2 : ((d.set src { srcN with childNodes := srcN.childNodes.erase c }).set c
      { cd with parentNode := some dst })[dst]? = some dstN := by
    rw [List.getElem?_set_ne hcd, List.getElem?_set_ne (Ne.symm hds)]
    exact hdstN
  have hstep : d.appendChild dst c =
      ((d.set src { srcN with childNodes := srcN.childNodes.erase c }).set c
        { cd with parentNode := some dst }).set dst
        { dstN with childNodes := dstN.childNodes ++ [c] } := by
    unfold DomHeap.appendChild
    simp only [hc, hcp, hsrcN, h1, h2]
  rw [hstep]
  refine ⟨?_, ?_, ?_, ?_⟩
  · rw [List.getElem?_set_eq_of_lt]
    simpa using hdstlt
  · rw [List.getElem?_set_ne (Ne.symm hcd), List.getElem?_set_eq_of_lt]
    simpa using hclt
  · intro q hqs hqd hqc
    rw [List.getElem?_set_ne (Ne.symm hqd), List.getElem?_set_ne (Ne.symm hqc),
      List.getElem?_set_ne (Ne.symm hqs)]
  · simp

theorem spliceFold_spec (cs : List DomId) (d : DomHeap) (src dst : DomId)
    (dstN : FuelDOMNodeData)
    (hkids : ∀ c ∈ cs, ∃ cd, d[c]? = some cd ∧ cd.parentNode = some src)
    (hnodup : cs.Nodup) (hdst : dst ∉ cs) (hsrc : src ∉ cs) (hds : dst ≠ src)
    (hsrclt : src < d.length) (hdstN : d[dst]? = some dstN) :
    ∃ dstN2, (cs.foldl (fun acc c => acc.appendChild dst c) d)[dst]? = some dstN2 ∧
      dstN2.childNodes = dstN.childNodes ++ cs ∧
      dstN2.nodeType = dstN.nodeType ∧ dstN2.parentNode = dstN.parentNode ∧
      (∀ q, q ≠ src → q ≠ dst → q ∉ cs →
        (cs.foldl (fun acc c => acc.appendChild dst c) d)[q]? = d[q]?) ∧
      (cs.foldl (fun acc c => acc.appendChild dst c) d).length = d.length := by
  induction cs generalizing d dstN with
  | nil =>
    exact ⟨dstN, hdstN, by simp, rfl, rfl, fun q h1 h2 h3 => rfl, rfl⟩
  | cons c cs ih =>
    obtain ⟨cd, hcd, hcdp⟩ := hkids c (List.mem_cons_self c cs)
    obtain ⟨srcN, hsrcN⟩ : ∃ x, d[src]? = some x := by
      rw [List.getElem?_eq_getElem hsrclt]
      exact ⟨_, rfl⟩
    obtain ⟨hcnotin, hnodup2⟩ := List.nodup_cons.mp hnodup
    have hcns : c ≠ src := fun hh => hsrc (hh ▸ List.mem_cons_self c cs)
    have hcnd : c ≠ dst := fun hh => hdst (hh ▸ List.mem_cons_self c cs)
    obtain ⟨hm1, hm2, hm3, hm4⟩ :=
      appendChild_move d src dst c cd srcN dstN hcd hcdp hsrcN hdstN hcns hcnd hds
    have hkids2 : ∀ c2 ∈ cs, ∃ cd2, (d.appendChild dst c)[c2]? = some cd2 ∧
        cd2.parentNode = some src := by
      intro c2 hc2
      obtain ⟨cd2, hcd2, hcd2p⟩ := hkids c2 (List.mem_cons_of_mem c hc2)
      refine ⟨cd2, ?_, hcd2p⟩
      rw [hm3 c2 (fun hh => hsrc (hh ▸ List.mem_cons_of_mem c hc2))
        (fun hh => hdst (hh ▸ List.mem_cons_of_mem c hc2))
        (fun hh => hcnotin (hh ▸ hc2))]
      exact hcd2
    simp only [List.foldl_cons]
    obtain ⟨dstN2, hq1, hq2, hq3, hq4, hq5, hq6⟩ := ih (d.appendChild dst c)
      { dstN with childNodes := dstN.childNodes ++ [c] } hkids2 hnodup2
      (fun hh => hdst (List.mem_cons_of_mem c hh))
      (fun hh => hsrc (List.mem_cons_of_mem c hh))
      (by rw [hm4]; exact hsrclt) hm1
    refine ⟨dstN2, hq1, ?_, ?_, ?_, ?_, ?_⟩
    · rw [hq2]
      simp
    · simpa using hq3
    · simpa using hq4
    · intro q hqs hqd hqcs
      have hqc : q ≠ c := fun hh => hqcs (hh ▸ List.mem_cons_self c cs)
      rw [hq5 q hqs hqd (fun hh => hqcs (List.mem_cons_of_mem c hh)), hm3 q hqs hqd hqc]
    · rw [hq6, hm4]

theorem replaceChild_final (D : DomHeap) (parentDom newDom oldDom : DomId)
    (parentNode newNode : FuelDOMNodeData)
    (hP : D[parentDom]? = some parentNode) (hN : D[newDom]? = some newNode)
    (hmem : oldDom ∈ parentNode.childNodes)
    (hpo : parentDom ≠ oldDom) (hpn : parentDom ≠ newDom) (hno : newDom ≠ oldDom) :
    ∃ D2, D.replaceChild parentDom newDom oldDom = .ok D2 ∧
      D2[parentDom]? =
        some { parentNode with
               childNodes := parentNode.childNodes.replace oldDom newDom } ∧
      (D2[newDom]?).map (·.childNodes) = some newNode.childNodes := by
  rcases List.getElem?_eq_some.mp hP with ⟨hplt, -⟩
  rcases List.getElem?_eq_some.mp hN with ⟨hnlt, -⟩
  unfold DomHeap.replaceChild
  simp only [hP, hmem, if_pos, ite_true, if_true]
  have hd1p : (D.set parentDom
      { parentNode with childNodes := parentNode.childNodes.replace oldDom newDom })[parentDom]? =
      some { parentNode with childNodes := parentNode.childNodes.replace oldDom newDom } :=
    List.getElem?_set_eq_of_lt _ hplt
  have hd1n : (D.set parentDom
      { parentNode with childNodes := parentNode.childNodes.replace oldDom newDom })[newDom]? =
      some newNode := by
    rw [List.getElem?_set_ne hpn]
    exact hN
  cases hold : (D.set parentDom
      { parentNode with childNodes := parentNode.childNodes.replace oldDom newDom })[oldDom]? with
  | none =>
    simp only [hold, hd1n]
    refine ⟨_, rfl, ?_, ?_⟩
    · rw [List.getElem?_set_ne (Ne.symm hpn)]
      exact hd1p
    · rw [List.getElem?_set_eq_of_lt]
      · rfl
      · simpa using hnlt
  | some od2 =>
    simp only [hold]
    have hd2n : ((D.set parentDom
        { parentNode with childNodes := parentNode.childNodes.replace oldDom newDom }).set
        oldDom { od2 with parentNode := none })[newDom]? = some newNode := by
      rw [List.getElem?_set_ne (Ne.symm hno)]
      exact hd1n
    simp only [hd2n]
    refine ⟨_, rfl, ?_, ?_⟩
    · rw [List.getElem?_set_ne (Ne.symm hpn), List.getElem?_set_ne (Ne.symm hpo)]
      exact hd1p
    · rw [List.getElem?_set_eq_of_lt]
      · rfl
      · simpa using hnlt

theorem removeAppend_final (D : DomHeap) (parentDom newDom oldDom : DomId)
    (parentNode newNode : FuelDOMNodeData)
    (hP : D[parentDom]? = some parentNode) (hN : D[newDom]? = some newNode)
    (hNp : newNode.parentNode = none)
    (hmem : oldDom ∈ parentNode.childNodes)
    (hpo : parentDom ≠ oldDom) (hpn : parentDom ≠ newDom) (hno : newDom ≠ oldDom) :
    ∃ D3, D.removeChild parentDom oldDom = .ok D3 ∧
      (D3.appendChild parentDom newDom)[parentDom]? =
        some { parentNode with
               childNodes := (parentNode.childNodes.erase oldDom) ++ [newDom] } ∧
      ((D3.appendChild parentDom newDom)[newDom]?).map (·.childNodes) =
        some newNode.childNodes := by
  rcases List.getElem?_eq_some.mp hP with ⟨hplt, -⟩
  rcases List.getElem?_eq_some.mp hN with ⟨hnlt, -⟩
  have hd1p : (D.set parentDom
      { parentNode with childNodes := parentNode.childNodes.erase oldDom })[parentDom]? =
      some { parentNode with childNodes := parentNode.childNodes.erase oldDom } :=
    List.getElem?_set_eq_of_lt _ hplt
  have hd1n : (D.set parentDom
      { parentNode with childNodes := parentNode.childNodes.erase oldDom })[newDom]? =
      some newNode := by
    rw [List.getElem?_set_ne hpn]
    exact hN
  have happend : ∀ (D3 : DomHeap),
      D3[parentDom]? = some { parentNode with childNodes := parentNode.childNodes.erase oldDom } →
      D3[newDom]? = some newNode →
      (D3.appendChild parentDom newDom)[parentDom]? =
        some { parentNode with
               childNodes := (parentNode.childNodes.erase oldDom) ++ [newDom] } ∧
      ((D3.appendChild parentDom newDom)[newDom]?).map (·.childNodes) =
        some newNode.childNodes := by
    intro D3 h3p h3n
    rcases List.getElem?_eq_some.mp h3p with ⟨h3plt, -⟩
    rcases List.getElem?_eq_some.mp h3n with ⟨h3nlt, -⟩
    have hrep : (D3.set newDom { newNode with parentNode := some parentDom })[parentDom]? =
        some { parentNode with childNodes := parentNode.childNodes.erase oldDom } := by
      rw [List.getElem?_set_ne (Ne.symm hpn)]
      exact h3p
    have hstep : D3.appendChild parentDom newDom =
        (D3.set newDom { newNode with parentNode := some parentDom }).set parentDom
          { parentNode with childNodes := (parentNode.childNodes.erase oldDom) ++ [newDom] } := by
      unfold DomHeap.appendChild
      simp only [h3n, hNp, hrep]
    rw [hstep]
    constructor
    · rw [List.getElem?_set_eq_of_lt]
      simpa using h3plt
    · rw [List.getElem?_set_ne hpn, List.getElem?_set_eq_of_lt]
      · rfl
      · simpa using h3nlt
  unfold DomHeap.removeChild
  simp only [hP, hmem, if_pos, ite_true, if_true]
  cases hold : (D.set parentDom
      { parentNode with childNodes := parentNode.childNodes.erase oldDom })[oldDom]? with
  | none =>
    simp only [hold]
    exact ⟨_, rfl, happend _ hd1p hd1n⟩
  | some od2 =>
    simp only [hold]
    refine ⟨_, rfl, happend _ ?_ ?_⟩
    · rw [List.getElem?_set_ne (Ne.symm hpo)]
      exact hd1p
    · rw [List.getElem?_set_ne (Ne.symm hno)]
      exact hd1n

theorem replaceElement_spec (s : UpdSt) (p o n : ElemId) (keyed : Bool)
    (nd od pd : FuelElementData) (oldDom parentDom : DomId)
    (oldNode parentNode : FuelDOMNodeData)
    (hnd : s.eheap[n]? = some nd) (hod : s.eheap[o]? = some od)
    (hpd : s.eheap[p]? = some pd)
    (hodom : od.dom = some oldDom) (hpdom : pd.dom = some parentDom)
    (holdN : s.dheap[oldDom]? = some oldNode) (hparN : s.dheap[parentDom]? = some parentNode)
    (hchild : oldDom ∈ parentNode.childNodes)
    (hkids : ∀ c ∈ oldNode.childNodes, ∃ cd, s.dheap[c]? = some cd ∧
      cd.parentNode = some oldDom)
    (hkidslt : ∀ c ∈ oldNode.childNodes, c < s.dheap.length)
    (hnodup : oldNode.childNodes.Nodup)
    (hsrcnotself : oldDom ∉ oldNode.childNodes)
    (hparnot : parentDom ∉ oldNode.childNodes)
    (hpne : parentDom ≠ oldDom) :
    ∃ s2, replaceElement s (some p) o n keyed = .ok s2 ∧
      s2.eheap = s.eheap ∧ s2.events = s.events ∧
      (s2.dheap[s.dheap.length]?).map (·.childNodes) =
        some (if oldNode.nodeType = 1 ∧ nd.text = none
              then oldNode.childNodes.filter (isElementNode s.dheap) else []) ∧
      (keyed = false → (s2.dheap[parentDom]?).map (·.childNodes) =
        some (parentNode.childNodes.replace oldDom s.dheap.length)) ∧
      (keyed = true → (s2.dheap[parentDom]?).map (·.childNodes) =
        some ((parentNode.childNodes.erase oldDom) ++ [s.dheap.length])) := by
  have holdlt := (List.getElem?_eq_some.mp holdN).1
  have hparlt := (List.getElem?_eq_some.mp hparN).1
  have hcd : createDomElement s n =
      .ok ({ s with dheap := s.dheap ++
        [{ nodeType := if nd.text.isSome then 3 else 1, childNodes := [], parentNode := none,
           textContent := nd.text.getD "" }] }, s.dheap.length) := by
    simp [createDomElement, hnd]
  have hDBold : (s.dheap ++
      [{ nodeType := if nd.text.isSome then 3 else 1, childNodes := [], parentNode := none,
         textContent := nd.text.getD "" }])[oldDom]? = some oldNode := by
    rw [List.getElem?_append_left holdlt]
    exact holdN
  have hDBpar : (s.dheap ++
      [{ nodeType := if nd.text.isSome then 3 else 1, childNodes := [], parentNode := none,
         textContent := nd.text.getD "" }])[parentDom]? = some parentNode := by
    rw [List.getElem?_append_left hparlt]
    exact hparN
  have hDBnew : (s.dheap ++
      [{ nodeType := if nd.text.isSome then 3 else 1, childNodes := [], parentNode := none,
         textContent := nd.text.getD "" }])[s.dheap.length]? =
      some { nodeType := if nd.text.isSome then 3 else 1, childNodes := [], parentNode := none,
             textContent := nd.text.getD "" } :=
    List.getElem?_concat_length _ _
  have hcs : elementChildren (s.dheap ++
      [{ nodeType := if nd.text.isSome then 3 else 1, childNodes := [], parentNode := none,
         textContent := nd.text.getD "" }]) oldDom =
      oldNode.childNodes.filter (isElementNode s.dheap) := by
    unfold elementChildren
    rw [hDBold]
    apply List.filter_congr
    intro c hc
    unfold isElementNode
    rw [List.getElem?_append_left (hkidslt c hc)]
  have hnewne : s.dheap.length ≠ oldDom := (Nat.ne_of_lt holdlt).symm
  have hparnew : parentDom ≠ s.dheap.length := Nat.ne_of_lt hparlt
  have hBtext : ∀ t : Option String,
      (some (if t.isSome then (3 : Nat) else 1) = some 1) ↔ t = none := by
    intro t
    cases t <;> simp
  obtain ⟨dstN2, hsp1, hsp2, hsp3, hsp4, hsp5, hsp6⟩ :=
    spliceFold_spec (oldNode.childNodes.filter (isElementNode s.dheap))
      (s.dheap ++
        [{ nodeType := if nd.text.isSome then 3 else 1, childNodes := [], parentNode := none,
           textContent := nd.text.getD "" }]) oldDom s.dheap.length
      { nodeType := if nd.text.isSome then 3 else 1, childNodes := [], parentNode := none,
        textContent := nd.text.getD "" }
      (by
        intro c hc
        obtain ⟨cd, hcd2, hcdp⟩ := hkids c (List.mem_of_mem_filter hc)
        refine ⟨cd, ?_, hcdp⟩
        rw [List.getElem?_append_left (hkidslt c (List.mem_of_mem_filter hc))]
        exact hcd2)
      (hnodup.filter _)
      (by
        intro hmem
        exact absurd rfl (Nat.ne_of_lt (hkidslt _ (List.mem_of_mem_filter hmem))).symm)
      (fun hmem => hsrcnotself (List.mem_of_mem_filter hmem))
      hnewne
      (by
        rw [List.length_append]
        exact Nat.lt_add_right _ holdlt)
      hDBnew
  have hDpar : ((oldNode.childNodes.filter (isElementNode s.dheap)).foldl
      (fun acc c => acc.appendChild s.dheap.length c)
      (s.dheap ++
        [{ nodeType := if nd.text.isSome then 3 else 1, childNodes := [], parentNode := none,
           textContent := nd.text.getD "" }]))[parentDom]? = some parentNode := by
    rw [hsp5 parentDom hpne hparnew (fun hmem => hparnot (List.mem_of_mem_filter hmem))]
    exact hDBpar
  have hdstch : dstN2.childNodes = oldNode.childNodes.filter (isElementNode s.dheap) := by
    simpa using hsp2
  have hdstpar : dstN2.parentNode = none := by
    simpa using hsp4
  by_cases hcont : oldNode.nodeType = 1 ∧ nd.text = none
  · -- both container-kind: the splice happens
    have hOK : (some oldNode.nodeType = some (1 : Nat) ∧
        some (if nd.text.isSome then (3 : Nat) else 1) = some 1) :=
      ⟨by rw [hcont.1], (hBtext nd.text).mpr hcont.2⟩
    cases keyed with
    | false =>
      obtain ⟨D2, hD2, hD2par, hD2new⟩ := replaceChild_final _ parentDom s.dheap.length oldDom
        parentNode dstN2 hDpar hsp1 hchild hpne hparnew hnewne
      have heq : replaceElement s (some p) o n false =
          .ok { eheap := s.eheap, dheap := D2, events := s.events } := by
        unfold replaceElement
        simp only [hcd, bind, Except.bind, pure, Except.pure, hod, hodom, Option.some_bind,
          Option.map_some', hDBold, hDBnew]
        rw [if_pos hOK]
        simp only [hcs, hpd, hpdom, Option.some_bind, Bool.not_false, if_true, ite_true, hD2,
          bind, Except.bind, pure, Except.pure]
      refine ⟨_, heq, rfl, rfl, ?_, ?_, ?_⟩
      · rw [hD2new, hdstch, if_pos hcont]
      · intro hx
        rw [hD2par]
        rfl
      · intro hx
        exact absurd hx (by simp)
    | true =>
      obtain ⟨D3, hD3, hD3par, hD3new⟩ := removeAppend_final _ parentDom s.dheap.length oldDom
        parentNode dstN2 hDpar hsp1 hdstpar hchild hpne hparnew hnewne
      have heq : replaceElement s (some p) o n true =
          .ok { eheap := s.eheap,
                dheap := D3.appendChild parentDom s.dheap.length,
                events := s.events } := by
        unfold replaceElement
        simp only [hcd, bind, Except.bind, pure, Except.pure, hod, hodom, Option.some_bind,
          Option.map_some', hDBold, hDBnew]
        rw [if_pos hOK]
        simp only [hcs, hpd, hpdom, Option.some_bind, Bool.not_true, Bool.false_eq_true,
          if_false, ite_false, hD3, bind, Except.bind, pure, Except.pure]
      refine ⟨_, heq, rfl, rfl, ?_, ?_, ?_⟩
      · rw [hD3new, hdstch, if_pos hcont]
      · intro hx
        exact absurd hx (by simp)
      · intro hx
        rw [hD3par]
        rfl
  · -- not both container-kind: no splice, the fresh node keeps no children
    have hNOK : ¬(some oldNode.nodeType = some (1 : Nat) ∧
        some (if nd.text.isSome then (3 : Nat) else 1) = some 1) := fun hx =>
      hcont ⟨Option.some_injective _ hx.1, (hBtext nd.text).mp hx.2⟩
    cases keyed with
    | false =>
      obtain ⟨D2, hD2, hD2par, hD2new⟩ := replaceChild_final _ parentDom s.dheap.length oldDom
        parentNode _ hDBpar hDBnew hchild hpne hparnew hnewne
      have heq : replaceElement s (some p) o n false =
          .ok { eheap := s.eheap, dheap := D2, events := s.events } := by
        unfold replaceElement
        simp only [hcd, bind, Except.bind, pure, Except.pure, hod, hodom, Option.some_bind,
          Option.map_some', hDBold, hDBnew]
        rw [if_neg hNOK]
        simp only [hpd, hpdom, Option.some_bind, Bool.not_false, if_true, ite_true, hD2,
          bind, Except.bind, pure, Except.pure]
      refine ⟨_, heq, rfl, rfl, ?_, ?_, ?_⟩
      · rw [hD2new, if_neg hcont]
      · intro hx
        rw [hD2par]
        rfl
      · intro hx
        exact absurd hx (by simp)
    | true =>
      obtain ⟨D3, hD3, hD3par, hD3new⟩ := removeAppend_final _ parentDom s.dheap.length oldDom
        parentNode _ hDBpar hDBnew rfl hchild hpne hparnew hnewne
      have heq : replaceElement s (some p) o n true =
          .ok { eheap := s.eheap,
                dheap := D3.appendChild parentDom s.dheap.length,
                events := s.events } := by
        unfold replaceElement
        simp only [hcd, bind, Except.bind, pure, Except.pure, hod, hodom, Option.some_bind,
          Option.map_some', hDBold, hDBnew]
        rw [if_neg hNOK]
        simp only [hpd, hpdom, Option.some_bind, Bool.not_true, Bool.false_eq_true,
          if_false, ite_false, hD3, bind, Except.bind, pure, Except.pure]
      refine ⟨_, heq, rfl, rfl, ?_, ?_, ?_⟩
      · rw [hD3new, if_neg hcont]
      · intro hx
        exact absurd hx (by simp)
      · intro hx
        rw [hD3par]
        rfl

theorem flags_remove_or_new_not_structural (d : Difference)
    (h : isRemoveElement d = true ∨ isNewElement d = true) :
    d.flags ≠ 0 ∧ d.flags ≠ DifferenceBits.REPLACE_ELEMENT := by
  rcases h with h | h
  · unfold isRemoveElement at h
    constructor
    · intro h0
      rw [h0] at h
      exact absurd h (by decide)
    · intro h8
      rw [h8] at h
      exact absurd h (by decide)
  · unfold isNewElement at h
    constructor
    · intro h0
      rw [h0] at h
      exact absurd h (by decide)
    · intro h8
      rw [h8] at h
      exact absurd h (by decide)

theorem inflightOk_map_enqueued (l : List RenderReq) (d : Nat) (rest : List REvent) :
    inflightOk d ((l.map fun r => REvent.enqueued r.id) ++ rest) = inflightOk d rest := by
  induction l with
  | nil => rfl
  | cons r t ih => simp [inflightOk, ih]

theorem renderCycles_inflightOk (q : List RenderReq) :
    inflightOk 0 (renderCycles q) = true := by
  induction q using renderCycles.induct with
  | case1 => simp [renderCycles, inflightOk]
  | case2 i during queue ih =>
    simp [renderCycles, inflightOk, inflightOk_map_enqueued, ih]

theorem startIds_map_enqueued (l : List RenderReq) (rest : List REvent) :
    startIds ((l.map fun r => REvent.enqueued r.id) ++ rest) = startIds rest := by
  induction l with
  | nil => rfl
  | cons r t ih => simp [startIds, ih]

theorem enqueuedIds_map_enqueued (l : List RenderReq) (rest : List REvent) :
    enqueuedIds ((l.map fun r => REvent.enqueued r.id) ++ rest) =
      l.map RenderReq.id ++ enqueuedIds rest := by
  induction l with
  | nil => rfl
  | cons r t ih => simp [enqueuedIds, ih]

theorem renderCycles_fifo (q : List RenderReq) :
    startIds (renderCycles q) = q.map RenderReq.id ++ enqueuedIds (renderCycles q) := by
  induction q using renderCycles.induct with
  | case1 => simp [renderCycles, startIds, enqueuedIds]
  | case2 i during queue ih =>
    rw [renderCycles]
    simp only [startIds, enqueuedIds, startIds_map_enqueued, enqueuedIds_map_enqueued]
    rw [ih]
    simp [RenderReq.id]

theorem patchComponent_none_none (h : ElemHeap) (fuel : Nat) (context : Ctx) :
    patchComponent h fuel context none none = .ok (context, none, none, h) := rfl

theorem patchComponent_host (h : ElemHeap) (fuel : Nat) (context : Ctx) (n o : ElemId)
    (nd od : FuelElementData) (hnd : h[n]? = some nd) (hod : h[o]? = some od)
    (hcn : nd.component = none) (hco : od.component = none) :
    patchComponent h fuel context (some n) (some o) = .ok (context, some n, some o, h) := by
  simp [patchComponent, hnd, hod, FuelElementView.isComponent, hcn, hco, pure, Except.pure,
    bind, Except.bind]

/- ------------------------------------------------------------------ -/
/- Claim theorems                                                      -/
/- ------------------------------------------------------------------ -/

/-- C1: on an attached stem, at most one render cycle is ever in flight
(cycles in the scheduling trace strictly alternate start/end and never
nest), a render call arriving while the lock is held is appended to the
render queue (FIFO) rather than dropped or run concurrently, and the order
in which cycles start is exactly the submission order: the initial pending
requests in order, followed by the queue-arrival order of every request
enqueued during a cycle — queued renders are replayed one at a time after
the in-flight cycle completes. -/
theorem render_lock_serializes_cycles (q : List RenderReq) (rq : List QueuedRender)
    (tree : Option ElemId) (el : ElemId) (cb : Nat) (context : Ctx) (uo : Bool) :
    FuelStem.render ⟨true, true, rq, tree⟩ el cb context uo =
      (⟨true, true, rq ++ [{ element := el, cb := cb }], tree⟩, .queued) ∧
    inflightOk 0 (renderCycles q) = true ∧
    startIds (renderCycles q) = q.map RenderReq.id ++ enqueuedIds (renderCycles q) :=
  ⟨rfl, renderCycles_inflightOk q, renderCycles_fifo q⟩

/-- C9: a render call arriving while the stem is locked stores only the
element and the callback in the render queue; when `drainRenderQueue` later
replays the queued entry it calls `render` with the defaults — a fresh
empty context and `updateOwnwer = true` — regardless of the context and
update-owner arguments the caller originally passed. -/
theorem queued_render_forgets_context_and_owner (rq : List QueuedRender)
    (tree : Option ElemId) (el : ElemId) (cb : Nat) (context : Ctx) (uo : Bool)
    (qe : ElemId) (qc : Nat) (restQ : List QueuedRender) (t : ElemId) :
    FuelStem.render ⟨true, true, rq, tree⟩ el cb context uo =
      (⟨true, true, rq ++ [{ element := el, cb := cb }], tree⟩, .queued) ∧
    FuelStem.drainRenderQueue ⟨true, false, { element := qe, cb := qc } :: restQ, some t⟩ =
      (⟨true, true, restQ, some qe⟩, some (.patchCycle qe qc Ctx.empty true)) :=
  ⟨rfl, rfl⟩

/-- C7: a popped frame whose pairing resolves to absent on both sides after
component expansion is discarded as a no-op — the walk continues with the
rest of the stack and the heap, the parent reference and the batch list are
untouched. -/
theorem nullnull_frame_skipped (s : PatchLoopState) (next : PatchFrame)
    (rest : List PatchFrame) (hs : s.stack = next :: rest) (hp : next.parsed = false)
    (hn : next.newElement = none) (ho : next.oldElement = none) :
    patchStep s = .ok (some { s with stack := rest }) := by
  unfold patchStep
  rw [hs]
  simp [hp, hn, ho, patchComponent_none_none, bind, Except.bind, pure, Except.pure]

/-- Witness for C7: the skip fires on a concrete null/null frame. -/
theorem nullnull_frame_skipped_witness :
    patchStep { heap := [], stack := [initialFrame none none], parent := none, batchs := [] } =
      .ok (some { heap := [], stack := [], parent := none, batchs := [] }) :=
  nullnull_frame_skipped _ (initialFrame none none) [] rfl rfl rfl rfl

/-- C6: the Keyed Child Matcher pairing policy — when the parent state's old
element carries a key index containing the popped new child's key
(`keyedMatch` succeeds) and the keyed match is still in the old-children
queue, that match is the paired old child, it is spliced out of the queue
and the pairing is flagged keyed; when the keyed match was already consumed
from the queue, the matcher degrades to positional pairing (dequeues the
next old child, not flagged keyed); and when the keyed lookup fails, the
pairing is positional by dequeuing the next old child in order. -/
theorem keyed_child_matcher_policy (h : ElemHeap) (context : Ctx) (ps : PatchFrame)
    (prev : PatchFrame) (oldArg : Option ElemId) (ncs ocs : List ElemId) (pe : ElemId)
    (hnc : prev.newChildren = some ncs) (hoc : prev.oldChildren = some ocs)
    (hpe : prev.newElement = some pe) :
    (∀ k oc nc idx, keyedMatch h (some ps) ncs.head? = some (k, oc, nc) →
        ocs.findIdx? (· == oc) = some idx →
        ∃ child prev2 h2,
          createNextStackState h context (some ps) prev oldArg = .ok (child, prev2, h2) ∧
          child.oldElement = some oc ∧ child.isKeyedItem = true ∧
          prev2.oldChildren = some (ocs.eraseIdx idx) ∧
          prev2.newChildren = some ncs.tail) ∧
    (∀ k oc nc, keyedMatch h (some ps) ncs.head? = some (k, oc, nc) →
        ocs.findIdx? (· == oc) = none →
        ∃ child prev2 h2,
          createNextStackState h context (some ps) prev oldArg = .ok (child, prev2, h2) ∧
          child.oldElement = ocs.head? ∧ child.isKeyedItem = false ∧
          prev2.oldChildren = some ocs.tail ∧
          prev2.newChildren = some ncs.tail) ∧
    (keyedMatch h (some ps) ncs.head? = none →
        ∃ child prev2 h2,
          createNextStackState h context (some ps) prev oldArg = .ok (child, prev2, h2) ∧
          child.oldElement = ocs.head? ∧ child.isKeyedItem = false ∧
          prev2.oldChildren = some ocs.tail ∧
          prev2.newChildren = some ncs.tail) := by
  refine ⟨?_, ?_, ?_⟩
  · intro k oc nc idx hkm hfind
    have hpair := pairOldChild_keyed_found h (some ps) ncs.head? ocs k oc nc idx hkm hfind
    rcases hadj : adjustNewChild (pairHeap h (some ps) k nc) ncs.head? prev.root with
      ⟨newChild1, root1⟩
    rcases propagateOwner_some_prev (pairHeap h (some ps) k nc) newChild1 pe with ⟨h2, hh2, -⟩
    have hok : createNextStackState h context (some ps) prev oldArg =
        .ok (⟨context, newChild1, some oc, none, none, false, none, root1, true⟩,
          { prev with newChildren := some ncs.tail, oldChildren := some (ocs.eraseIdx idx) },
          h2) := by
      simp only [createNextStackState, hnc, hoc, bind, Except.bind, pure, Except.pure, hpair,
        hadj, hpe, hh2]
    exact ⟨_, _, _, hok, rfl, rfl, rfl, rfl⟩
  · intro k oc nc hkm hfind
    have hpair := pairOldChild_keyed_consumed h (some ps) ncs.head? ocs k oc nc hkm hfind
    rcases hadj : adjustNewChild (pairHeap h (some ps) k nc) ncs.head? prev.root with
      ⟨newChild1, root1⟩
    rcases propagateOwner_some_prev (pairHeap h (some ps) k nc) newChild1 pe with ⟨h2, hh2, -⟩
    have hok : createNextStackState h context (some ps) prev oldArg =
        .ok (⟨context, newChild1, ocs.head?, none, none, false, none, root1, false⟩,
          { prev with newChildren := some ncs.tail, oldChildren := some ocs.tail }, h2) := by
      simp only [createNextStackState, hnc, hoc, bind, Except.bind, pure, Except.pure, hpair,
        hadj, hpe, hh2]
    exact ⟨_, _, _, hok, rfl, rfl, rfl, rfl⟩
  · intro hkm
    have hpair := pairOldChild_positional h (some ps) ncs.head? ocs hkm
    rcases hadj : adjustNewChild h ncs.head? prev.root with ⟨newChild1, root1⟩
    rcases propagateOwner_some_prev h newChild1 pe with ⟨h2, hh2, -⟩
    have hok : createNextStackState h context (some ps) prev oldArg =
        .ok (⟨context, newChild1, ocs.head?, none, none, false, none, root1, false⟩,
          { prev with newChildren := some ncs.tail, oldChildren := some ocs.tail }, h2) := by
      simp only [createNextStackState, hnc, hoc, bind, Except.bind, pure, Except.pure, hpair,
        hadj, hpe, hh2]
    exact ⟨_, _, _, hok, rfl, rfl, rfl, rfl⟩

/-- Witness for C6: on the concrete keyed heap the matcher pairs the popped
new child with the keyed old child 2, splices it out of the queue and flags
the pairing keyed. -/
theorem keyed_child_matcher_policy_witness :
    ∃ child prev2 h2,
      createNextStackState keyHeap Ctx.empty (some keyParentFrame) keyPrevFrame none =
        .ok (child, prev2, h2) ∧
      child.oldElement = some 2 ∧ child.isKeyedItem = true ∧
      prev2.oldChildren = some [] ∧ prev2.newChildren = some [] := by
  have hmain := (keyed_child_matcher_policy keyHeap Ctx.empty keyParentFrame keyPrevFrame
    none [1] [2] 3 rfl rfl rfl).1 5 2 1 0 rfl rfl
  simpa using hmain

/-- C10: whenever the Keyed Child Matcher performs a keyed lookup and the
new parent element has no `_keymap` yet, it creates the new parent's
`_keymap` containing exactly one entry — the currently popped keyed child;
when the new parent already has a `_keymap`, the matcher never adds the
popped child to it (the map is left unchanged) — so a key index created
during a walk holds exactly one entry no matter how many keyed children the
parent has. -/
theorem keymap_lazy_single_entry (h : ElemHeap) (context : Ctx) (ps : PatchFrame)
    (prev : PatchFrame) (oldArg : Option ElemId) (ncs ocs : List ElemId) (pe : ElemId)
    (k : Nat) (oc nc : ElemId) (pn : ElemId) (pnd : FuelElementData)
    (hnc : prev.newChildren = some ncs) (hoc : prev.oldChildren = some ocs)
    (hpe : prev.newElement = some pe)
    (hkm : keyedMatch h (some ps) ncs.head? = some (k, oc, nc))
    (hpn : ps.newElement = some pn) (hpnd : h[pn]? = some pnd) :
    (pnd._keymap = none →
      ∃ child prev2 h2 d2,
        createNextStackState h context (some ps) prev oldArg = .ok (child, prev2, h2) ∧
        h2[pn]? = some d2 ∧ d2._keymap = some [(k, nc)]) ∧
    (∀ m, pnd._keymap = some m →
      ∃ child prev2 h2 d2,
        createNextStackState h context (some ps) prev oldArg = .ok (child, prev2, h2) ∧
        h2[pn]? = some d2 ∧ d2._keymap = some m) := by
  rcases List.getElem?_eq_some.mp hpnd with ⟨hpnlt, -⟩
  rcases createNextStackState_keymap_effect h context ps prev oldArg ncs ocs pe k oc nc
    hnc hoc hpe hkm with ⟨child, prev2, h2, hok, hproj⟩
  have hph := pairHeap_some h ps k nc pn pnd hpn hpnd
  constructor
  · intro hnone
    have hthis := hproj pn
    rw [hph, if_pos hnone, List.getElem?_set_eq_of_lt _ hpnlt] at hthis
    rcases exists_of_map_keymap _ _ _ hthis with ⟨d2, hd2, hd2k⟩
    exact ⟨child, prev2, h2, d2, hok, hd2, hd2k⟩
  · intro m hsome
    have hthis := hproj pn
    rw [hph, if_neg (by simp [hsome]), hpnd] at hthis
    simp [hsome] at hthis
    rcases hthis with ⟨d2, hd2, hd2k⟩
    exact ⟨child, prev2, h2, d2, hok, hd2, hd2k⟩

/-- Witness for C10: on the concrete keyed heap the new parent (element 3)
has no key index, so the matcher creates one with exactly the single entry
for the popped child 1 under key 5. -/
theorem keymap_lazy_single_entry_witness :
    ∃ child prev2 h2 d2,
      createNextStackState keyHeap Ctx.empty (some keyParentFrame) keyPrevFrame none =
        .ok (child, prev2, h2) ∧
      h2[(3 : ElemId)]? = some d2 ∧ d2._keymap = some [(5, 1)] :=
  (keymap_lazy_single_entry keyHeap Ctx.empty keyParentFrame keyPrevFrame none [1] [2] 3
    5 2 1 3 hostElem rfl rfl rfl rfl rfl rfl).1 rfl

/-- C3: during the patch walk, for a frame whose pair resolves (after
component expansion) to an old element that is present, reconciliation
aborts fatally with the invariant violation exactly when that old element's
native node reference is missing at diff time; when the native node is
present the walk proceeds normally. -/
theorem invariant_aborts_iff_dom_missing (s : PatchLoopState) (next : PatchFrame)
    (rest : List PatchFrame) (n o : ElemId) (nd od : FuelElementData)
    (hs : s.stack = next :: rest) (hp : next.parsed = false)
    (hn : next.newElement = some n) (ho : next.oldElement = some o)
    (hnd : s.heap[n]? = some nd) (hod : s.heap[o]? = some od)
    (hcn : nd.component = none) (hco : od.component = none) :
    (od.dom = none → patchStep s = .error .invariantViolation) ∧
    (od.dom ≠ none → ∃ s1, patchStep s = .ok (some s1)) := by
  rcases List.getElem?_eq_some.mp hnd with ⟨hnlt, -⟩
  have hpc := patchComponent_host s.heap (s.heap.length + 1) next.context n o nd od hnd hod
    hcn hco
  have hh2n : (s.heap.set n { nd with _stem := od._stem })[n]? =
      some { nd with _stem := od._stem } :=
    List.getElem?_set_eq_of_lt _ hnlt
  obtain ⟨h2od, hh2o, hch, hdm⟩ :
      ∃ x, (s.heap.set n { nd with _stem := od._stem })[o]? = some x ∧
        x.children = od.children ∧ x.dom = od.dom := by
    by_cases heq : n = o
    · have hndod : nd = od := by
        rw [heq, hod] at hnd
        exact (Option.some_injective _ hnd).symm
      subst heq
      exact ⟨_, hh2n, by simp [hndod], by simp [hndod]⟩
    · exact ⟨od, by rw [List.getElem?_set_ne heq, hod], rfl, rfl⟩
  constructor
  · intro hdom
    unfold patchStep
    rw [hs]
    simp [hp, hn, ho, hpc, hnd, hod, hh2o, hh2n, hdm, hdom, invariant, bind, Except.bind,
      pure, Except.pure]
  · intro hdom
    unfold patchStep
    rw [hs]
    simp only [hp, hn, ho, hpc, hnd, hod, bind, Except.bind, pure, Except.pure,
      Bool.not_false, if_true, ite_true]
    simp only [hh2n, hh2o, hch, hdm, Option.some_bind]
    have hdec : decide (od.dom = none) = false := decide_eq_false hdom
    simp only [invariant, hdec, Bool.false_eq_true, if_false, ite_false, bind, Except.bind,
      pure, Except.pure, reduceCtorEq]
    rcases createNextStackState_ok (s.heap.set n { nd with _stem := od._stem }) next.context
      s.parent
      { context := next.context, newElement := some n, oldElement := some o,
        newChildren := some nd.children, oldChildren := some od.children, parsed := true,
        difference :=
          some (diff (s.heap.set n { nd with _stem := od._stem }) (some o) (some n)),
        root := next.root, isKeyedItem := next.isKeyedItem }
      (some o) nd.children od.children rfl rfl (Or.inl rfl) with ⟨c2, p2, h3, hok2, -, -⟩
    rw [hok2]
    repeat' split
    all_goals first
      | exact ⟨_, rfl⟩
      | contradiction

/-- Witness for C3: a concrete frame whose present old element has no
native node reference aborts the walk with the invariant violation. -/
theorem invariant_aborts_iff_dom_missing_witness :
    patchStep { heap := [hostElem, hostElem],
                stack := [initialFrame (some 0) (some 1)],
                parent := none, batchs := [] } = .error .invariantViolation :=
  (invariant_aborts_iff_dom_missing
    { heap := [hostElem, hostElem], stack := [initialFrame (some 0) (some 1)],
      parent := none, batchs := [] }
    (initialFrame (some 0) (some 1)) [] 0 1 hostElem hostElem
    rfl rfl rfl rfl rfl rfl rfl rfl).1 rfl

/-- C8: in the patch walk, when both the new and the old element are present
after component expansion, the new element's `_stem` field is set to the old
element's `_stem` reference before the pair's difference is computed: the
walk succeeds, the resulting heap carries the old `_stem` on the new
element, and the recorded batch entry's difference is computed over the heap
with the `_stem` already copied. -/
theorem stem_identity_travels (s : PatchLoopState) (next : PatchFrame)
    (rest : List PatchFrame) (n o : ElemId) (nd od : FuelElementData) (dm : DomId)
    (hs : s.stack = next :: rest) (hp : next.parsed = false)
    (hn : next.newElement = some n) (ho : next.oldElement = some o)
    (hnd : s.heap[n]? = some nd) (hod : s.heap[o]? = some od)
    (hcn : nd.component = none) (hco : od.component = none) (hdom : od.dom = some dm) :
    ∃ s1, patchStep s = .ok (some s1) ∧
      (s1.heap[n]?).map (·._stem) = some od._stem ∧
      s1.batchs = s.batchs ++
        [{ root := if od._stem.isSome then some n else next.root,
           parent := s.parent.bind (·.newElement),
           newElement := some n, oldElement := some o,
           isKeyedItem := next.isKeyedItem,
           difference := diff (s.heap.set n { nd with _stem := od._stem }) (some o) (some n),
           context := next.context }] := by
  rcases List.getElem?_eq_some.mp hnd with ⟨hnlt, -⟩
  have hpc := patchComponent_host s.heap (s.heap.length + 1) next.context n o nd od hnd hod
    hcn hco
  have hh2n : (s.heap.set n { nd with _stem := od._stem })[n]? =
      some { nd with _stem := od._stem } :=
    List.getElem?_set_eq_of_lt _ hnlt
  obtain ⟨h2od, hh2o, hch, hdm⟩ :
      ∃ x, (s.heap.set n { nd with _stem := od._stem })[o]? = some x ∧
        x.children = od.children ∧ x.dom = od.dom := by
    by_cases heq : n = o
    · have hndod : nd = od := by
        rw [heq, hod] at hnd
        exact (Option.some_injective _ hnd).symm
      subst heq
      exact ⟨_, hh2n, by simp [hndod], by simp [hndod]⟩
    · exact ⟨od, by rw [List.getElem?_set_ne heq, hod], rfl, rfl⟩
  have hdomne : od.dom ≠ none := by simp [hdom]
  unfold patchStep
  rw [hs]
  simp only [hp, hn, ho, hpc, hnd, hod, bind, Except.bind, pure, Except.pure,
    Bool.not_false, if_true, ite_true]
  simp only [hh2n, hh2o, hch, hdm, Option.some_bind]
  have hdec : decide (od.dom = none) = false := decide_eq_false hdomne
  simp only [invariant, hdec, Bool.false_eq_true, if_false, ite_false, bind, Except.bind,
    pure, Except.pure, reduceCtorEq]
  rcases createNextStackState_ok (s.heap.set n { nd with _stem := od._stem }) next.context
    s.parent
    { context := next.context, newElement := some n, oldElement := some o,
      newChildren := some nd.children, oldChildren := some od.children, parsed := true,
      difference :=
        some (diff (s.heap.set n { nd with _stem := od._stem }) (some o) (some n)),
      root := next.root, isKeyedItem := next.isKeyedItem }
    (some o) nd.children od.children rfl rfl (Or.inl rfl) with ⟨c2, p2, h3, hok2, -, hproj⟩
  have hstem3 : (h3[n]?).map (·._stem) = some od._stem := by
    have hthis := hproj (fun d => d._stem) (fun d own => rfl) (fun d km => rfl) n
    rw [hh2n] at hthis
    simpa using hthis
  have hstemset : ((s.heap.set n { nd with _stem := od._stem })[n]?).map (·._stem) =
      some od._stem := by
    rw [hh2n]
    rfl
  simp only [hok2]
  repeat' split
  all_goals first
    | contradiction
    | (refine ⟨_, rfl, ?_, ?_⟩
       · first
         | exact hstem3
         | exact hstemset
       · simp [*])

/-- Witness for C8: on a concrete retained pairing the walk succeeds, the
new element ends up carrying the old element's `_stem` reference, and the
batch difference is computed over the stem-copied heap. -/
theorem stem_identity_travels_witness :
    ∃ s1, patchStep { heap := [hostElem, { hostElem with dom := some 0, _stem := some 7 }],
                      stack := [initialFrame (some 0) (some 1)], parent := none,
                      batchs := [] } =
      .ok (some s1) ∧
      (s1.heap[(0 : ElemId)]?).map (·._stem) = some (some 7) := by
  obtain ⟨s1, hok, hstem, -⟩ := stem_identity_travels
    { heap := [hostElem, { hostElem with dom := some 0, _stem := some 7 }],
      stack := [initialFrame (some 0) (some 1)], parent := none, batchs := [] }
    (initialFrame (some 0) (some 1)) [] 0 1 hostElem
    { hostElem with dom := some 0, _stem := some 7 } 0
    rfl rfl rfl rfl rfl rfl rfl rfl rfl
  exact ⟨s1, hok, hstem⟩

/-- C4: in the patch walk, a parsed frame with remaining new or old children
is re-pushed, followed by one new unparsed child frame, exactly when its
difference has no structural change (flags zero) or is a full replace;
otherwise the frame is dropped without pushing children — in particular a
frame whose difference is a pure removal or a pure new-insertion never has
child frames pushed for it. -/
theorem children_expansion_policy (s : PatchLoopState) (next : PatchFrame)
    (rest : List PatchFrame) (ncs ocs : List ElemId) (d : Difference)
    (hs : s.stack = next :: rest) (hp : next.parsed = true)
    (hnc : next.newChildren = some ncs) (hoc : next.oldChildren = some ocs)
    (hd : next.difference = some d) (hne : next.newElement.isSome ∨ ncs = []) :
    ((ncs.length ≠ 0 ∨ ocs.length ≠ 0) ∧
        (d.flags = 0 ∨ d.flags = DifferenceBits.REPLACE_ELEMENT) →
      ∃ child next2 h2,
        patchStep s = .ok (some { heap := h2, stack := child :: next2 :: rest,
                                  parent := some next2, batchs := s.batchs }) ∧
        child.parsed = false) ∧
    (¬((ncs.length ≠ 0 ∨ ocs.length ≠ 0) ∧
        (d.flags = 0 ∨ d.flags = DifferenceBits.REPLACE_ELEMENT)) →
      patchStep s = .ok (some { s with stack := rest })) ∧
    ((isRemoveElement d = true ∨ isNewElement d = true) →
      patchStep s = .ok (some { s with stack := rest })) := by
  rcases createNextStackState_ok s.heap next.context s.parent next next.oldElement ncs ocs
    hnc hoc hne with ⟨child, next2, h2, hok2, hparsed, -⟩
  refine ⟨?_, ?_, ?_⟩
  · intro hcond
    unfold patchStep
    rw [hs]
    simp only [hp, hnc, hoc, hd, bind, Except.bind, pure, Except.pure, Bool.not_true,
      Bool.false_eq_true, if_false, ite_false, Option.getD_some, Option.map_some,
      reduceCtorEq, Option.map_some', Option.some_inj, hok2]
    split
    · exact ⟨child, next2, h2, rfl, hparsed⟩
    · rename_i hneg
      exact absurd (by tauto) hneg
  · intro hncond
    unfold patchStep
    rw [hs]
    simp only [hp, hnc, hoc, hd, bind, Except.bind, pure, Except.pure, Bool.not_true,
      Bool.false_eq_true, if_false, ite_false, Option.getD_some, Option.map_some,
      reduceCtorEq, Option.map_some', Option.some_inj, hok2]
    split
    · rename_i hpos
      exact absurd (by tauto :
        (ncs.length ≠ 0 ∨ ocs.length ≠ 0) ∧
          (d.flags = 0 ∨ d.flags = DifferenceBits.REPLACE_ELEMENT)) hncond
    · rfl
  · intro hrem
    have hf := flags_remove_or_new_not_structural d hrem
    unfold patchStep
    rw [hs]
    simp only [hp, hnc, hoc, hd, bind, Except.bind, pure, Except.pure, Bool.not_true,
      Bool.false_eq_true, if_false, ite_false, Option.getD_some, Option.map_some,
      reduceCtorEq, Option.map_some', Option.some_inj, hok2]
    split
    · rename_i hpos
      exact absurd hpos (by tauto)
    · rfl

/-- Witness for C4: a parsed frame with a pure-removal difference and a
remaining old child is dropped without pushing any child frames. -/
theorem children_expansion_policy_witness :
    patchStep { heap := [], stack := [removalFrame], parent := none, batchs := [] } =
      .ok (some { heap := [], stack := [], parent := none, batchs := [] }) :=
  (children_expansion_policy
    { heap := [], stack := [removalFrame], parent := none, batchs := [] }
    removalFrame [] [] [5] { flags := DifferenceBits.REMOVE_ELEMENT, attr := [] }
    rfl rfl rfl rfl rfl (Or.inr rfl)).2.2 (Or.inl (by decide))

/-- C5: for every batch entry classified as a replaced element, the applier
invokes "will unmount" on the old element strictly before "did mount" on the
new element; the old native node's element-kind child nodes are spliced onto
the new native node exactly when both the old and the new native node are
container-type nodes (nodeType 1); and the new node is inserted via
`replaceChild` (in-place substitution in the parent's child list) when the
pairing is positional, and via remove-then-append (old node removed, new
node appended at the end) when the pairing is keyed. -/
theorem replace_element_policy (s : UpdSt) (b : Batch) (n o p : ElemId)
    (nd od pd : FuelElementData) (oldDom parentDom : DomId)
    (oldNode parentNode : FuelDOMNodeData)
    (hnnew : isNewElement b.difference = false)
    (hnrem : isRemoveElement b.difference = false)
    (hrep : isReplaceElement b.difference = true)
    (hncc : isCreateChildren b.difference = false)
    (hbo : b.oldElement = some o) (hbn : b.newElement = some n) (hbp : b.parent = some p)
    (hnd : s.eheap[n]? = some nd) (hod : s.eheap[o]? = some od) (hpd : s.eheap[p]? = some pd)
    (hodom : od.dom = some oldDom) (hpdom : pd.dom = some parentDom)
    (holdN : s.dheap[oldDom]? = some oldNode) (hparN : s.dheap[parentDom]? = some parentNode)
    (hchild : oldDom ∈ parentNode.childNodes)
    (hkids : ∀ c ∈ oldNode.childNodes, ∃ cd, s.dheap[c]? = some cd ∧
      cd.parentNode = some oldDom)
    (hkidslt : ∀ c ∈ oldNode.childNodes, c < s.dheap.length)
    (hnodup : oldNode.childNodes.Nodup)
    (hsrcnotself : oldDom ∉ oldNode.childNodes)
    (hparnot : parentDom ∉ oldNode.childNodes)
    (hpne : parentDom ≠ oldDom) :
    ∃ s2, updateBatch s b = .ok s2 ∧
      s2.events = s.events ++ [.willUnmount o, .didMount n] ∧
      (s2.dheap[s.dheap.length]?).map (·.childNodes) =
        some (if oldNode.nodeType = 1 ∧ nd.text = none
              then oldNode.childNodes.filter (isElementNode s.dheap) else []) ∧
      (b.isKeyedItem = false → (s2.dheap[parentDom]?).map (·.childNodes) =
        some (parentNode.childNodes.replace oldDom s.dheap.length)) ∧
      (b.isKeyedItem = true → (s2.dheap[parentDom]?).map (·.childNodes) =
        some ((parentNode.childNodes.erase oldDom) ++ [s.dheap.length])) := by
  obtain ⟨s2x, heq, hee, hev, hnew, hposi, hkeyd⟩ := replaceElement_spec
    { s with events := s.events ++ [Effect.willUnmount o] } p o n b.isKeyedItem nd od pd
    oldDom parentDom oldNode parentNode hnd hod hpd hodom hpdom holdN hparN hchild hkids
    hkidslt hnodup hsrcnotself hparnot hpne
  have hupd : updateBatch s b =
      .ok { s2x with events := s2x.events ++ [Effect.didMount n] } := by
    unfold updateBatch
    simp only [hnnew, hnrem, hrep, hncc, hbo, hbn, hbp, bind, Except.bind, pure, Except.pure,
      Bool.false_eq_true, if_false, ite_false, if_true, ite_true, invokeWillUnmount,
      invokeDidMount, heq]
  refine ⟨_, hupd, ?_, ?_, ?_, ?_⟩
  · rw [hev]
    simp
  · exact hnew
  · exact hposi
  · exact hkeyd

theorem replace_element_policy_witness :
    ∃ s2, updateBatch c5State c5Batch = .ok s2 ∧
      s2.events = c5State.events ++ [.willUnmount 0, .didMount 1] ∧
      (s2.dheap[c5State.dheap.length]?).map (·.childNodes) =
        some (if (1 : Nat) = 1 ∧ hostElem.text = none
              then [2].filter (isElementNode c5State.dheap) else []) ∧
      (c5Batch.isKeyedItem = false → (s2.dheap[(1 : DomId)]?).map (·.childNodes) =
        some (([0] : List DomId).replace 0 c5State.dheap.length)) ∧
      (c5Batch.isKeyedItem = true → (s2.dheap[(1 : DomId)]?).map (·.childNodes) =
        some ((([0] : List DomId).erase 0) ++ [c5State.dheap.length])) :=
  replace_element_policy c5State c5Batch 1 0 2
    hostElem { hostElem with dom := some 0 } { hostElem with dom := some 1 }
    0 1
    { nodeType := 1, childNodes := [2], parentNode := some 1, textContent := "" }
    { nodeType := 1, childNodes := [0], parentNode := none, textContent := "" }
    rfl rfl rfl rfl rfl rfl rfl rfl rfl rfl rfl rfl rfl rfl
    (by decide)
    (fun c hc => by
      simp only [List.mem_singleton] at hc
      subst hc
      exact ⟨_, rfl, rfl⟩)
    (by decide) (by decide) (by decide) (by decide) (by decide)

/-- C2 counterexample: on a concrete batch entry whose difference is
classified as a new element, with an absent parent reference and an old
element present, the Batch Applier does not complete — it fails with a
TypeError (the `parent.dom` dereference of the absent parent), so the
claimed did-mount/will-unmount invocations and successful completion do not
happen. -/
theorem new_element_no_parent_counterexample :
    updateBatch { eheap := [hostElem, hostElem], dheap := [], events := [] }
      { root := none, parent := none, newElement := some 0, oldElement := some 1,
        isKeyedItem := false,
        difference := { flags := DifferenceBits.NEW_ELEMENT, attr := [] },
        context := .empty } = .error .typeError := by
  rfl

/-- C2 (amended): for every batch entry whose difference is classified as a
new element, whose parent reference is absent while an old element is
present, the Batch Applier builds the full new native subtree and then
fails with a TypeError dereferencing the absent parent reference — the
append and both lifecycle hooks are never reached and the entry does not
complete. -/
theorem new_element_no_parent_fails (s : UpdSt) (b : Batch) (n o : ElemId)
    (nd : FuelElementData)
    (hnew : isNewElement b.difference = true) (hpar : b.parent = none)
    (hold : b.oldElement = some o) (hne : b.newElement = some n)
    (hnd : s.eheap[n]? = some nd) :
    updateBatch s b = .error .typeError := by
  unfold updateBatch
  simp only [hnew, hpar, hold, hne, bind, Except.bind, pure, Except.pure, if_true, ite_true]
  simp [fastCreateDomTree, createDomElement, hnd, bind, Except.bind]

/-- Witness for the amended C2: the failure fires on the concrete batch
entry of the counterexample. -/
theorem new_element_no_parent_fails_witness :
    updateBatch { eheap := [hostElem, hostElem], dheap := [], events := [] }
      { root := none, parent := none, newElement := some 0, oldElement := some 1,
        isKeyedItem := false,
        difference := { flags := DifferenceBits.NEW_ELEMENT, attr := [] },
        context := .empty } = .error .typeError :=
  new_element_no_parent_fails
    { eheap := [hostElem, hostElem], dheap := [], events := [] }
    { root := none, parent := none, newElement := some 0, oldElement := some 1,
      isKeyedItem := false,
      difference := { flags := DifferenceBits.NEW_ELEMENT, attr := [] },
      context := .empty } 0 1 hostElem rfl rfl rfl rfl rfl

end Fuel
